import Mathlib

/-!
Verification of the simulation core of the `TowerDefence` repository
(`enemy.py`, `tower.py`, `level.py`, `main.py`).

The Python sources are shallowly embedded below.  Conventions:

* `pygame.math.Vector2` (float pair) is modelled by `ℝ × ℝ`; float
  arithmetic is modelled by exact real arithmetic.
* `pygame.Rect` stores integers; rect collision is the SDL overlap test.
* Python ints are `ℤ` (or `ℕ` for indices that are provably non-negative).
* A pygame sprite group is modelled by keeping every object in a list and
  flagging membership with an `alive : Bool` field: `kill()` / `remove()`
  clear the flag, group iteration ranges over the `alive` entries.  This
  preserves Python object identity (a killed object can still be mutated).
* Code that can raise an exception (`Vector2.normalize` on a zero-length
  vector) returns `Except Unit`.
* Rendering, sound, fonts, images and input handling are external
  collaborators and are elided; image sizes (which determine rect sizes)
  are passed in as parameters.
-/

namespace TowerDefence

/-- 2D float vector (`pygame.math.Vector2`), modelled over `ℝ`. -/
abbrev Vec2 := ℝ × ℝ

/-- Vector subtraction. -/
def Vec2.sub (a b : Vec2) : Vec2 := (a.1 - b.1, a.2 - b.2)

/-- Vector addition. -/
def Vec2.add (a b : Vec2) : Vec2 := (a.1 + b.1, a.2 + b.2)

/-- Scalar multiple. -/
def Vec2.smul (c : ℝ) (v : Vec2) : Vec2 := (c * v.1, c * v.2)

/-- The `Vector2.distance_to` method: Euclidean distance. -/
noncomputable def Vec2.distance_to (p q : Vec2) : ℝ :=
  Real.sqrt ((q.1 - p.1) ^ 2 + (q.2 - p.2) ^ 2)

/-- The `Vector2.normalize` method.  pygame raises `ValueError` when the
vector has length zero; that exception is the `.error` case. -/
noncomputable def Vec2.normalize (v : Vec2) : Except Unit Vec2 :=
  if v = ((0 : ℝ), (0 : ℝ)) then .error ()
  else
    let n := Real.sqrt (v.1 ^ 2 + v.2 ^ 2)
    .ok (v.1 / n, v.2 / n)

/-- View an integer waypoint as a float vector (`Vector2(path[i])`). -/
def ptR (p : ℤ × ℤ) : Vec2 := ((p.1 : ℝ), (p.2 : ℝ))

/-- Truncation toward zero, as in assigning a float to an int rect field. -/
noncomputable def truncZ (x : ℝ) : ℤ := if 0 ≤ x then ⌊x⌋ else -⌊-x⌋

/-- Componentwise truncation of a float vector. -/
noncomputable def truncV (p : Vec2) : ℤ × ℤ := (truncZ p.1, truncZ p.2)

/-- An integer rectangle (`pygame.Rect`). -/
structure Rect where
  x : ℤ
  y : ℤ
  w : ℤ
  h : ℤ
deriving DecidableEq

/-- The `Rect.colliderect` overlap test (SDL semantics). -/
def Rect.colliderect (a b : Rect) : Bool :=
  decide (a.x < b.x + b.w) && decide (b.x < a.x + a.w) &&
  decide (a.y < b.y + b.h) && decide (b.y < a.y + a.h)

/-- Assigning `rect.center = (cx, cy)` on an integer rect. -/
def Rect.set_center (r : Rect) (c : ℤ × ℤ) : Rect :=
  { r with x := c.1 - r.w / 2, y := c.2 - r.h / 2 }

/-- The enemy state (`enemy.py`, class `Enemy`).  The `image` surface and
`game` back-reference are elided; the effects routed through `game`
(ledger credit, game-over flag) are returned explicitly by the
operations below. -/
structure Enemy where
  path : List (ℤ × ℤ)
  path_index : ℕ
  speed : ℝ
  health : ℤ
  reward : ℤ
  position : Vec2
  rect : Rect
  alive : Bool

/-- `Enemy.take_damage` followed (when health drops to `≤ 0`) by
`Enemy.on_death`: health is decremented unconditionally; `on_death`
credits the ledger with `reward` and kills the sprite.  The second
component is the amount credited to the ledger by this call.  Note the
source performs no check that the enemy is still alive, so a dead enemy
hit again credits its reward again. -/
def Enemy.take_damage (e : Enemy) (amount : ℤ) : Enemy × ℤ :=
  let h := e.health - amount
  if h ≤ 0 then ({ e with health := h, alive := false }, e.reward)
  else ({ e with health := h }, 0)

/-- `Enemy.update` (path following).  The returned `Bool` records whether
`game.game_over()` was called (the enemy leaked).  `normalize` on a
zero-length segment raises, which propagates as `.error`. -/
noncomputable def Enemy.update (e : Enemy) : Except Unit (Enemy × Bool) :=
  if (e.path_index : ℤ) < (e.path.length : ℤ) - 1 then
    let start_point := ptR (e.path.getD e.path_index (0, 0))
    let end_point := ptR (e.path.getD (e.path_index + 1) (0, 0))
    match (end_point.sub start_point).normalize with
    | .error u => .error u
    | .ok direction =>
      let position := e.position.add (Vec2.smul e.speed direction)
      let rect := e.rect.set_center (truncV position)
      let idx := if position.distance_to end_point < e.speed then e.path_index + 1
                 else e.path_index
      if (e.path.length : ℤ) - 1 ≤ (idx : ℤ) then
        .ok ({ e with position := position, rect := rect, path_index := idx,
                      alive := false }, true)
      else
        .ok ({ e with position := position, rect := rect, path_index := idx }, false)
  else .ok (e, false)

/-- The three tower classes of `tower.py`. -/
inductive TowerKind
  | basic
  | sniper
  | money
deriving DecidableEq

/-- Tower state (`tower.py`, class `Tower` and subclasses).  Rendering
fields (image, rect, rotation angle) and sounds are elided.  The money
generation fields belong to `MoneyTower`; they are carried (inertly) by
every variant. -/
structure Tower where
  variant : TowerKind
  position : Vec2
  tower_range : ℝ
  damage : ℤ
  rate_of_fire : ℤ
  last_shot_time : ℤ
  level : ℕ
  money_generation_rate : ℤ
  generation_interval : ℤ
  last_generation_time : ℤ

/-- `Tower.upgrade_cost`: `50 * self.level`. -/
def Tower.upgrade_cost (t : Tower) : ℤ := 50 * (t.level : ℤ)

/-- `Tower.upgrade`, threading the ledger (`game.settings.starting_money`)
explicitly.  `int(x * 1.2)` and `int(x * 0.8)` truncate toward zero; for
integer inputs of game magnitude the float products round to the exact
rational values, so they are modelled by exact truncated division. -/
def Tower.upgrade (t : Tower) (money : ℤ) : Tower × ℤ :=
  if t.upgrade_cost ≤ money then
    ({ t with level := t.level + 1,
              damage := (t.damage * 12).tdiv 10,
              rate_of_fire := (t.rate_of_fire * 8).tdiv 10 },
     money - t.upgrade_cost)
  else (t, money)

/-- `BasicTower.__init__`: the base constructor followed by the subclass
overrides (`tower_range = 150`, `damage = 20`, `rate_of_fire = 1000`).
`now` is `pygame.time.get_ticks()` at construction. -/
def mk_basic_tower (pos : Vec2) (now : ℤ) : Tower :=
  { variant := .basic, position := pos, tower_range := 150, damage := 20,
    rate_of_fire := 1000, last_shot_time := now, level := 1,
    money_generation_rate := 10, generation_interval := 1000,
    last_generation_time := now }

/-- `SniperTower.__init__`: overrides `tower_range = 300`, `damage = 40`,
`rate_of_fire = 2000`. -/
def mk_sniper_tower (pos : Vec2) (now : ℤ) : Tower :=
  { variant := .sniper, position := pos, tower_range := 300, damage := 40,
    rate_of_fire := 2000, last_shot_time := now, level := 1,
    money_generation_rate := 10, generation_interval := 1000,
    last_generation_time := now }

/-- `MoneyTower.__init__`: keeps the base combat stats and adds the money
generation fields. -/
def mk_money_tower (pos : Vec2) (now : ℤ) : Tower :=
  { variant := .money, position := pos, tower_range := 120, damage := 50,
    rate_of_fire := 1000, last_shot_time := now, level := 1,
    money_generation_rate := 10, generation_interval := 1000,
    last_generation_time := now }

/-- One scan step state of `Tower.find_target`: the best enemy found so far
and the best distance, initially `(None, float('inf'))`; the accumulator
is threaded through the list of enemies in group order. -/
noncomputable def find_target_go (pos : Vec2) (rng : ℝ) :
    List Enemy → Option Enemy × WithTop ℝ → Option Enemy × WithTop ℝ
  | [], acc => acc
  | e :: es, acc =>
      let d := Vec2.distance_to pos e.position
      find_target_go pos rng es
        (if d ≤ rng ∧ (d : WithTop ℝ) < acc.2 then (some e, (d : WithTop ℝ)) else acc)

/-- `Tower.find_target`: nearest enemy within `tower_range` (basic towers). -/
noncomputable def Tower.find_target (t : Tower) (enemies : List Enemy) : Option Enemy :=
  (find_target_go t.position t.tower_range enemies (none, ⊤)).1

/-- One scan step of `SniperTower.find_target`: the healthiest enemy so far
and its health, initially `(None, 0)`. -/
noncomputable def sniper_find_target_go (pos : Vec2) (rng : ℝ) :
    List Enemy → Option Enemy × ℤ → Option Enemy × ℤ
  | [], acc => acc
  | e :: es, acc =>
      sniper_find_target_go pos rng es
        (if Vec2.distance_to pos e.position ≤ rng ∧ acc.2 < e.health
         then (some e, e.health) else acc)

/-- `SniperTower.find_target`: healthiest enemy within range. -/
noncomputable def Tower.sniper_find_target (t : Tower) (enemies : List Enemy) :
    Option Enemy :=
  (sniper_find_target_go t.position t.tower_range enemies (none, 0)).1

/-- Virtual dispatch of `self.find_target(enemies)`: `SniperTower`
overrides the base implementation. -/
noncomputable def Tower.dispatch_find_target (t : Tower) (enemies : List Enemy) :
    Option Enemy :=
  match t.variant with
  | .sniper => t.sniper_find_target enemies
  | _ => t.find_target enemies

/-- A projectile.  Modelled from the spec: `bullet.py` is not among the
sources; per the spec a projectile carries a damage payload and a sprite
rect, travels from the tower toward the target position, and is removed
on its first collision.  Only the fields read by `level.py` (`rect`,
`damage`, group membership) are modelled. -/
structure Bullet where
  rect : Rect
  damage : ℤ
  alive : Bool
deriving DecidableEq

/-- Modelled from the spec: `Bullet.__init__` — the projectile starts at
the tower position aimed at the target position; `bwh` is its image
size. -/
noncomputable def mk_bullet (bwh : ℤ × ℤ) (pos _target : Vec2) (damage : ℤ) : Bullet :=
  { rect := (Rect.mk 0 0 bwh.1 bwh.2).set_center (truncV pos),
    damage := damage, alive := true }

/-- `Tower.update` (and `MoneyTower.update` for the money variant): find a
target and fire if the cooldown elapsed.  Returns the updated tower, the
target position a bullet was emitted toward (if any), and the amount of
money generated (money towers). -/
noncomputable def Tower.update_step (t : Tower) (enemies : List Enemy) (now : ℤ) :
    Tower × Option Vec2 × ℤ :=
  match t.variant with
  | .money =>
      if t.generation_interval < now - t.last_generation_time then
        ({ t with last_generation_time := now }, none, t.money_generation_rate)
      else (t, none, 0)
  | _ =>
      match t.dispatch_find_target enemies with
      | some target =>
          if t.rate_of_fire ≤ now - t.last_shot_time then
            ({ t with last_shot_time := now }, some target.position, 0)
          else (t, none, 0)
      | none => (t, none, 0)

/-- The timestamps at which a tower fires over a sequence of `update`
calls, each call supplying the enemy list and the current time. -/
noncomputable def Tower.run_shots (t : Tower) : List (List Enemy × ℤ) → List ℤ
  | [] => []
  | (enemies, now) :: calls =>
      let r := t.update_step enemies now
      match r.2.1 with
      | some _ => now :: r.1.run_shots calls
      | none => r.1.run_shots calls

/-- The indices (into `enemies`) of the live enemies whose rects overlap a
bullet's rect: one entry of the `pygame.sprite.groupcollide` dict. -/
def bullet_hits (b : Bullet) (enemies : List Enemy) : List ℕ :=
  (List.range enemies.length).filter fun i =>
    match enemies[i]? with
    | some e => e.alive && b.rect.colliderect e.rect
    | none => false

/-- The `groupcollide(self.bullets, self.enemies, True, False)` dict, in
bullet group order: each live bullet with a non-empty hit list
contributes its damage and the hit indices. -/
def collision_entries (bullets : List Bullet) (enemies : List Enemy) :
    List (ℤ × List ℕ) :=
  bullets.filterMap fun b =>
    if b.alive then
      let hs := bullet_hits b enemies
      if hs.isEmpty then none else some (b.damage, hs)
    else none

/-- `enemy.take_damage(bullet.damage)` for the enemy stored at index `i`,
accumulating the ledger credit. -/
def apply_damage_at (enemies : List Enemy) (money : ℤ) (i : ℕ) (dmg : ℤ) :
    List Enemy × ℤ :=
  match enemies[i]? with
  | some e =>
      let r := e.take_damage dmg
      (enemies.set i r.1, money + r.2)
  | none => (enemies, money)

/-- The damage loop over the collision dict:
`for bullet in collisions: for enemy in collisions[bullet]: ...`. -/
def apply_entries (enemies : List Enemy) (money : ℤ)
    (entries : List (ℤ × List ℕ)) : List Enemy × ℤ :=
  entries.foldl
    (fun acc ent => ent.2.foldl (fun a i => apply_damage_at a.1 a.2 i ent.1) acc)
    (enemies, money)

/-- The collision block of `LevelBase.update`: compute the groupcollide
dict (killing each colliding bullet), then apply the damage loop. -/
def resolve_collisions (bullets : List Bullet) (enemies : List Enemy)
    (money : ℤ) : List Bullet × List Enemy × ℤ :=
  let bullets' := bullets.map fun b =>
    if b.alive && !(bullet_hits b enemies).isEmpty then { b with alive := false }
    else b
  let r := apply_entries enemies money (collision_entries bullets enemies)
  (bullets', r.1, r.2)

/-- The total payload of the live bullets overlapping an enemy. -/
def incoming_damage (bullets : List Bullet) (e : Enemy) : ℤ :=
  ((bullets.filter fun b => b.alive && b.rect.colliderect e.rect).map
    Bullet.damage).sum

/-- A sequence of `take_damage` applications, accumulating the ledger
credit. -/
def damage_run (e : Enemy) (ds : List ℤ) : Enemy × ℤ :=
  ds.foldl (fun acc d => let r := acc.1.take_damage d; (r.1, acc.2 + r.2)) (e, 0)

/-- An enemy spawn descriptor: one dict of a `self.waves` list (the
`image_path` string only selects the sprite image and is elided). -/
structure SpawnDesc where
  path : List (ℤ × ℤ)
  speed : ℚ
  health : ℤ
  reward : ℤ
deriving DecidableEq, Inhabited

/-- `Enemy.__init__` from a spawn descriptor (`Enemy(**enemy_info)`); `wh`
is the size of the loaded enemy image, which fixes the sprite rect. -/
def mk_enemy (wh : ℤ × ℤ) (d : SpawnDesc) : Enemy :=
  { path := d.path, path_index := 0, speed := (d.speed : ℝ), health := d.health,
    reward := d.reward, position := ptR (d.path.headD (0, 0)),
    rect := (Rect.mk 0 0 wh.1 wh.2).set_center (d.path.headD (0, 0)),
    alive := true }

/-- The state of a `LevelBase` object.  Sounds, fonts and the `game`
back-reference are elided; the ledger and game-over flag live in `Game`
below and are threaded through the operations. -/
structure LevelS where
  enemies : List Enemy
  towers : List Tower
  bullets : List Bullet
  waves : List (List SpawnDesc)
  current_wave : ℕ
  spawned_enemies : ℕ
  spawn_delay : ℤ
  last_spawn_time : ℤ
  all_waves_complete : Bool

/-- A blank level state (used only as the `getD` fallback for list
indexing that cannot miss in practice). -/
instance : Inhabited LevelS :=
  ⟨{ enemies := [], towers := [], bullets := [], waves := [], current_wave := 0,
     spawned_enemies := 0, spawn_delay := 1000, last_spawn_time := 0,
     all_waves_complete := false }⟩

/-- `len(self.enemies)`: sprites still in the enemy group. -/
def alive_count (enemies : List Enemy) : ℕ := enemies.countP (·.alive)

/-- `LevelBase.spawn_next_enemy` (the immediate spawn used when a wave
starts). -/
def spawn_next_enemy (wh : ℤ × ℤ) (s : LevelS) : LevelS :=
  if s.spawned_enemies < (s.waves.getD s.current_wave []).length then
    { s with
      enemies := s.enemies ++
        [mk_enemy wh ((s.waves.getD s.current_wave []).getD s.spawned_enemies default)],
      spawned_enemies := s.spawned_enemies + 1 }
  else s

/-- `LevelBase.start_next_wave`. -/
def start_next_wave (wh : ℤ × ℤ) (s : LevelS) : LevelS :=
  if s.current_wave < s.waves.length then
    spawn_next_enemy wh { s with spawned_enemies := 0 }
  else s

/-- The timed spawn block at the top of `LevelBase.update`. -/
def spawn_phase (wh : ℤ × ℤ) (now : ℤ) (s : LevelS) : LevelS :=
  if s.current_wave < s.waves.length ∧
     s.spawned_enemies < (s.waves.getD s.current_wave []).length ∧
     s.spawn_delay < now - s.last_spawn_time then
    { s with
      enemies := s.enemies ++
        [mk_enemy wh ((s.waves.getD s.current_wave []).getD s.spawned_enemies default)],
      spawned_enemies := s.spawned_enemies + 1,
      last_spawn_time := now }
  else s

/-- The collision block of `LevelBase.update` on the level state. -/
def collision_phase (s : LevelS) (money : ℤ) : LevelS × ℤ :=
  let r := resolve_collisions s.bullets s.enemies money
  ({ s with bullets := r.1, enemies := r.2.1 }, r.2.2)

/-- `self.enemies.update()`: update each sprite in the group (dead objects
are skipped — they are no longer members).  The `Bool` accumulates
whether some enemy leaked (called `game.game_over()`). -/
noncomputable def move_go : List Enemy → Except Unit (List Enemy × Bool)
  | [] => .ok ([], false)
  | e :: es =>
      match (if e.alive then e.update else .ok (e, false)) with
      | .error u => .error u
      | .ok (e', leaked) =>
          match move_go es with
          | .error u => .error u
          | .ok (es', leaked') => .ok (e' :: es', leaked || leaked')

/-- The enemy movement block of `LevelBase.update`. -/
noncomputable def move_phase (s : LevelS) : Except Unit (LevelS × Bool) :=
  match move_go s.enemies with
  | .error u => .error u
  | .ok (es, leaked) => .ok ({ s with enemies := es }, leaked)

/-- The tower loop of `LevelBase.update`: each tower updates against the
enemy group and may append a bullet; money towers credit the ledger. -/
noncomputable def tower_go (bwh : ℤ × ℤ) (now : ℤ) :
    List Tower → List Enemy → List Bullet → ℤ → List Tower × List Bullet × ℤ
  | [], _, bullets, money => ([], bullets, money)
  | t :: ts, enemies, bullets, money =>
      let r := t.update_step (enemies.filter (·.alive)) now
      let bullets' := match r.2.1 with
        | some tp => bullets ++ [mk_bullet bwh t.position tp t.damage]
        | none => bullets
      let rest := tower_go bwh now ts enemies bullets' (money + r.2.2)
      (r.1 :: rest.1, rest.2.1, rest.2.2)

/-- The tower block of `LevelBase.update` on the level state. -/
noncomputable def tower_phase (bwh : ℤ × ℤ) (now : ℤ) (s : LevelS) (money : ℤ) :
    LevelS × ℤ :=
  let r := tower_go bwh now s.towers s.enemies s.bullets money
  ({ s with towers := r.1, bullets := r.2.1 }, r.2.2)

/-- `self.bullets.update()`.  Modelled from the spec: `bullet.py` is not
among the sources; per the spec a projectile travels and may remove
itself when it exits the playable area, so bullet travel is an arbitrary
function `bm` applied to each live bullet (`none` = self-removal). -/
def bullet_phase (bm : Bullet → Option Bullet) (s : LevelS) : LevelS :=
  { s with bullets := s.bullets.map fun b =>
      if b.alive then
        match bm b with
        | some b' => b'
        | none => { b with alive := false }
      else b }

/-- The wave completion check at the bottom of `LevelBase.update`. -/
def wave_check (wh : ℤ × ℤ) (s : LevelS) : LevelS :=
  if alive_count s.enemies = 0 ∧ (s.current_wave : ℤ) < (s.waves.length : ℤ) - 1 then
    start_next_wave wh { s with current_wave := s.current_wave + 1 }
  else if alive_count s.enemies = 0 ∧
      (s.current_wave : ℤ) = (s.waves.length : ℤ) - 1 then
    { s with all_waves_complete := true }
  else s

/-- `LevelBase.update`: timed spawn, bullet/enemy collisions, enemy
movement, tower updates, bullet travel, wave completion check.  Returns
the level state, the ledger, and whether `game.game_over()` was called. -/
noncomputable def level_update (wh bwh : ℤ × ℤ) (bm : Bullet → Option Bullet)
    (now : ℤ) (s : LevelS) (money : ℤ) : Except Unit (LevelS × ℤ × Bool) :=
  let s1 := spawn_phase wh now s
  let c := collision_phase s1 money
  match move_phase c.1 with
  | .error u => .error u
  | .ok (s3, leaked) =>
      let tp := tower_phase bwh now s3 c.2
      let s5 := bullet_phase bm tp.1
      .ok (wave_check wh s5, tp.2, leaked)

/-- The path set of `Level1`. -/
def level1_paths : List (List (ℤ × ℤ)) :=
  [[(50, 400), (50, 200), (400, 200), (500, 50)]]

/-- The wave list built in `Level1.__init__`: `random.choice` over
`self.enemy_paths` runs once per wave while the literal is evaluated (the
five draws are parameters here), and `[desc] * n` replicates that single
descriptor `n` times. -/
def level1_waves (p1 p2 p3 p4 p5 : List (ℤ × ℤ)) : List (List SpawnDesc) :=
  [ List.replicate 5 { path := p1, speed := 1, health := 100, reward := 10 },
    List.replicate 10 { path := p2, speed := 2, health := 50, reward := 15 },
    List.replicate 4 { path := p3, speed := 1, health := 200, reward := 30 },
    List.replicate 3 { path := p4, speed := 1, health := 300, reward := 40 },
    List.replicate 1 { path := p5, speed := 1 / 2, health := 500, reward := 100 } ]

/-- The game-wide state of `TowerDefenseGame` (`main.py`): the ledger
(`settings.starting_money`), the terminal flags, the level objects and
the current level index. -/
structure Game where
  levels : List LevelS
  level_index : ℕ
  money : ℤ
  is_game_over : Bool
  is_game_won : Bool

/-- `self.level`: the current level object. -/
def Game.level (g : Game) : LevelS := g.levels.getD g.level_index default

/-- The reward sweep inside `_update_game`: every group member with
`health <= 0` is rewarded (again) and removed from the group. -/
def reward_sweep : List Enemy → ℤ → List Enemy × ℤ
  | [], money => ([], money)
  | e :: es, money =>
      if e.alive && decide (e.health ≤ 0) then
        let r := reward_sweep es (money + e.reward)
        ({ e with alive := false } :: r.1, r.2)
      else
        let r := reward_sweep es money
        (e :: r.1, r.2)

/-- `TowerDefenseGame._next_level`. -/
def next_level (g : Game) : Game :=
  if (g.level_index : ℤ) < (g.levels.length : ℤ) - 1 then
    { g with level_index := g.level_index + 1 }
  else { g with is_game_won := true }

/-- `TowerDefenseGame._update_game`: guarded by the terminal flags, then
level update, reward sweep and the level completion check. -/
noncomputable def update_game (wh bwh : ℤ × ℤ) (bm : Bullet → Option Bullet)
    (now : ℤ) (g : Game) : Except Unit Game :=
  if !g.is_game_over && !g.is_game_won then
    match level_update wh bwh bm now g.level g.money with
    | .error u => .error u
    | .ok (s, money, leaked) =>
        let r := reward_sweep s.enemies money
        let s2 := { s with enemies := r.1 }
        let g2 := { g with levels := g.levels.set g.level_index s2, money := r.2,
                           is_game_over := g.is_game_over || leaked }
        if s2.all_waves_complete && decide (alive_count s2.enemies = 0) then
          .ok (next_level g2)
        else .ok g2
  else .ok g

/-- One iteration of the `run_game` loop (event handling and drawing are
external): `_update_game`, then the unguarded
`if len(enemies) == 0 and not all_waves_complete: start_next_wave()`. -/
noncomputable def game_step (wh bwh : ℤ × ℤ) (bm : Bullet → Option Bullet)
    (now : ℤ) (g : Game) : Except Unit Game :=
  match update_game wh bwh bm now g with
  | .error u => .error u
  | .ok g1 =>
      if alive_count g1.level.enemies = 0 && !g1.level.all_waves_complete then
        .ok { g1 with
          levels := g1.levels.set g1.level_index (start_next_wave wh g1.level) }
      else .ok g1

/-- A 10×10 test rect with the given corner (collision test gadget). -/
def rect_at (x y : ℤ) : Rect := ⟨x, y, 10, 10⟩

/-- A live test bullet. -/
def test_bullet (r : Rect) (dmg : ℤ) : Bullet :=
  { rect := r, damage := dmg, alive := true }

/-- A live test enemy with the given rect, health and reward. -/
def test_enemy (r : Rect) (health reward : ℤ) : Enemy :=
  { path := [], path_index := 0, speed := 1, health := health, reward := reward,
    position := ((0 : ℝ), (0 : ℝ)), rect := r, alive := true }

/-- An enemy standing on a degenerate path whose current segment has
equal start and end waypoints. -/
def degenerate_enemy : Enemy :=
  { path := [(5, 5), (5, 5)], path_index := 0, speed := 1, health := 100,
    reward := 10, position := ptR (5, 5), rect := rect_at 0 0, alive := true }

/-- An enemy one step short of its final waypoint: its next update leaks
(reaches the base). -/
def leak_enemy : Enemy :=
  { path := [(0, 0), (1, 0)], path_index := 0, speed := 2, health := 30,
    reward := 9, position := ptR (0, 0), rect := rect_at 0 0, alive := true }

/-- The state of `leak_enemy` after its leaking update: moved past the
final waypoint, segment index advanced, removed from the group. -/
def leaked_enemy_result : Enemy :=
  { path := [(0, 0), (1, 0)], path_index := 1, speed := 2, health := 30,
    reward := 9, position := ((2 : ℝ), (0 : ℝ)),
    rect := { x := -3, y := -5, w := 10, h := 10 }, alive := false }

/-- A dead (removed) test enemy object. -/
def dead_enemy : Enemy :=
  { path := [(0, 0), (1, 0)], path_index := 0, speed := 1, health := -2,
    reward := 4, position := ptR (0, 0), rect := rect_at 0 0, alive := false }

/-- A live test enemy standing at `(x, 0)` with the given health
(targeting test gadget). -/
def target_enemy (x : ℝ) (health : ℤ) : Enemy :=
  { path := [], path_index := 0, speed := 1, health := health, reward := 0,
    position := (x, 0), rect := rect_at 0 0, alive := true }

/-- A simple spawn descriptor (test gadget). -/
def c1_desc : SpawnDesc :=
  { path := [(0, 0), (1, 0)], speed := 1, health := 5, reward := 1 }

/-- A level state reachable mid-wave: wave 0 has three descriptors, one
has been spawned (and its enemy already destroyed, so the field is
clear), and the inter-spawn delay has not yet elapsed. -/
def c1_state : LevelS :=
  { enemies := [], towers := [], bullets := [],
    waves := [[c1_desc, c1_desc, c1_desc], [c1_desc]], current_wave := 0,
    spawned_enemies := 1, spawn_delay := 1000, last_spawn_time := 0,
    all_waves_complete := false }

/-- A level whose only enemy object is dead and whose single wave still
has its descriptor, as left behind after a game-over leak. -/
def c4_level : LevelS :=
  { enemies := [dead_enemy], towers := [], bullets := [],
    waves := [[c1_desc]], current_wave := 0, spawned_enemies := 1,
    spawn_delay := 1000, last_spawn_time := 0, all_waves_complete := false }

/-- A game state with the game-over flag set. -/
def c4_game : Game :=
  { levels := [c4_level], level_index := 0, money := 37,
    is_game_over := true, is_game_won := false }

/-- C5: a tower upgrade with ledger below `50 × level` is a no-op leaving
tower stats and ledger unchanged; otherwise it debits exactly
`50 × level`, increments the level, sets damage to `int(damage * 1.2)`
and the fire interval to `int(rate_of_fire * 0.8)` (both truncated toward
zero).  In particular a freshly built basic tower (level 1, damage 20)
upgraded with ledger 50 becomes level 2 with damage 24 and next upgrade
cost 100, with the ledger debited by exactly 50. -/
theorem upgrade_follows_cost_and_scaling :
    (∀ (t : Tower) (money : ℤ),
      t.upgrade money =
        if money < t.upgrade_cost then (t, money)
        else ({ t with level := t.level + 1,
                       damage := (t.damage * 12).tdiv 10,
                       rate_of_fire := (t.rate_of_fire * 8).tdiv 10 },
              money - 50 * (t.level : ℤ))) ∧
    (∀ (pos : Vec2) (now : ℤ),
      ((mk_basic_tower pos now).upgrade 50).1.level = 2 ∧
      ((mk_basic_tower pos now).upgrade 50).1.damage = 24 ∧
      ((mk_basic_tower pos now).upgrade 50).1.upgrade_cost = 100 ∧
      ((mk_basic_tower pos now).upgrade 50).2 = 0) := by
  constructor
  · intro t money
    by_cases h : 50 * (t.level : ℤ) ≤ money
    · rw [if_neg (show ¬ money < t.upgrade_cost by
        simp only [Tower.upgrade_cost]; omega)]
      simp only [Tower.upgrade, Tower.upgrade_cost, if_pos h]
    · rw [if_pos (show money < t.upgrade_cost by
        simp only [Tower.upgrade_cost]; omega)]
      simp only [Tower.upgrade, Tower.upgrade_cost, if_neg h]
  · intro pos now
    refine ⟨?_, ?_, ?_, ?_⟩ <;> rfl

/-- After `take_damage` the health has dropped by exactly the amount. -/
lemma take_damage_health (e : Enemy) (d : ℤ) :
    (e.take_damage d).1.health = e.health - d := by
  unfold Enemy.take_damage
  by_cases hc : e.health - d ≤ 0 <;> simp [hc]

/-- The ledger credit of a single `take_damage` call. -/
lemma take_damage_credit (e : Enemy) (d : ℤ) :
    (e.take_damage d).2 = if e.health - d ≤ 0 then e.reward else 0 := by
  unfold Enemy.take_damage
  by_cases hc : e.health - d ≤ 0 <;> simp [hc]

/-- Group membership after a single `take_damage` call. -/
lemma take_damage_alive (e : Enemy) (d : ℤ) :
    (e.take_damage d).1.alive = (e.alive && !decide (e.health - d ≤ 0)) := by
  unfold Enemy.take_damage
  by_cases hc : e.health - d ≤ 0 <;> simp [hc]

/-- `take_damage` changes only health and group membership. -/
lemma take_damage_fields (e : Enemy) (d : ℤ) :
    (e.take_damage d).1.reward = e.reward ∧ (e.take_damage d).1.rect = e.rect := by
  unfold Enemy.take_damage
  by_cases hc : e.health - d ≤ 0 <;> simp [hc]

/-- Health telescopes along a fold of `take_damage` calls. -/
lemma damage_fold_health (ds : List ℤ) :
    ∀ (e : Enemy) (c : ℤ),
      ((ds.foldl (fun acc d => ((acc.1.take_damage d).1, acc.2 + (acc.1.take_damage d).2))
          (e, c)).1).health = e.health - ds.sum := by
  induction ds with
  | nil => intro e c; simp
  | cons d ds ih =>
      intro e c
      simp only [List.foldl_cons, List.sum_cons]
      rw [ih, take_damage_health]
      ring

/-- C9 (amended): health after a sequence of damage applications is the
initial health minus the sum of the amounts, but the death side effect is
not once-only: every single application that leaves health `≤ 0` credits
the ledger with the full reward (removal alone is idempotent), so several
projectiles hitting the same enemy in one tick credit its reward several
times. -/
theorem damage_additivity_and_credit_rule :
    (∀ (e : Enemy) (ds : List ℤ), (damage_run e ds).1.health = e.health - ds.sum) ∧
    (∀ (e : Enemy) (d : ℤ), (e.take_damage d).2 = if e.health - d ≤ 0 then e.reward else 0) ∧
    (∀ (e : Enemy) (d : ℤ),
      (e.take_damage d).1.alive = (e.alive && !decide (e.health - d ≤ 0))) := by
  refine ⟨?_, take_damage_credit, take_damage_alive⟩
  intro e ds
  unfold damage_run
  exact damage_fold_health ds e 0

/-- C9 counterexample: an enemy with health 10 and reward 7 hit by two
payload-10 bullets in the same tick credits the ledger 14 — the death
side effect fires twice, refuting "at most once per enemy". -/
theorem collision_credits_reward_twice :
    (resolve_collisions [test_bullet (rect_at 0 0) 10, test_bullet (rect_at 0 0) 10]
        [test_enemy (rect_at 0 0) 10 7] 0).2.2 = 14 ∧
    (test_enemy (rect_at 0 0) 10 7).reward = 7 ∧
    (test_enemy (rect_at 0 0) 10 7).health = 10 := by
  exact ⟨rfl, rfl, rfl⟩

/-- Membership in a bullet's hit list, characterized through the enemy
stored at that index. -/
lemma bullet_hits_pred (b : Bullet) (enemies : List Enemy) (i : ℕ) (e : Enemy)
    (he : enemies[i]? = some e) :
    i ∈ bullet_hits b enemies ↔ (e.alive && b.rect.colliderect e.rect) = true := by
  have hi : i < enemies.length := (List.getElem?_eq_some.mp he).1
  unfold bullet_hits
  rw [List.mem_filter]
  constructor
  · rintro ⟨-, hp⟩
    rwa [he] at hp
  · intro hp
    refine ⟨List.mem_range.mpr hi, ?_⟩
    rwa [he]

/-- Multiplicity of an enemy index in a bullet's hit list. -/
lemma bullet_hits_count (b : Bullet) (enemies : List Enemy) (i : ℕ) (e : Enemy)
    (he : enemies[i]? = some e) :
    (bullet_hits b enemies).count i =
      if (e.alive && b.rect.colliderect e.rect) = true then 1 else 0 := by
  have hi : i < enemies.length := (List.getElem?_eq_some.mp he).1
  by_cases hp : (e.alive && b.rect.colliderect e.rect) = true
  · rw [if_pos hp]
    unfold bullet_hits
    rw [List.count_filter (by rw [he]; exact hp)]
    exact List.count_eq_one_of_mem (List.nodup_range _) (List.mem_range.mpr hi)
  · rw [if_neg hp]
    rw [List.count_eq_zero]
    intro hm
    exact hp ((bullet_hits_pred b enemies i e he).mp hm)

/-- Health of the enemy at an index after the inner damage loop of one
collision entry. -/
lemma apply_idxs_get (dmg : ℤ) :
    ∀ (idxs : List ℕ) (enemies : List Enemy) (money : ℤ) (i : ℕ) (e : Enemy),
      enemies[i]? = some e →
      ∃ e', ((idxs.foldl (fun a j => apply_damage_at a.1 a.2 j dmg)
          (enemies, money)).1)[i]? = some e' ∧
        e'.health = e.health - dmg * (idxs.count i : ℤ) := by
  intro idxs
  induction idxs with
  | nil =>
      intro enemies money i e he
      exact ⟨e, he, by simp⟩
  | cons j idxs ih =>
      intro enemies money i e he
      simp only [List.foldl_cons]
      unfold apply_damage_at
      cases hj : enemies[j]? with
      | none =>
          have hji : j ≠ i := by
            intro h
            rw [h, he] at hj
            exact Option.noConfusion hj
          obtain ⟨e', h1, h2⟩ := ih enemies money i e he
          refine ⟨e', h1, ?_⟩
          rw [h2, List.count_cons]
          simp [hji]
      | some f =>
          by_cases hji : j = i
          · subst hji
            have hfe : f = e := by
              rw [he] at hj
              exact (Option.some_inj.mp hj).symm
            subst hfe
            have hlt : j < enemies.length := (List.getElem?_eq_some.mp hj).1
            have hset : (enemies.set j (f.take_damage dmg).1)[j]? =
                some (f.take_damage dmg).1 :=
              List.getElem?_set_eq_of_lt _ hlt
            obtain ⟨e', h1, h2⟩ :=
              ih (enemies.set j (f.take_damage dmg).1)
                (money + (f.take_damage dmg).2) j (f.take_damage dmg).1 hset
            refine ⟨e', h1, ?_⟩
            rw [h2, take_damage_health, List.count_cons]
            simp only [beq_self_eq_true, if_true]
            push_cast
            ring
          · have hset : (enemies.set j (f.take_damage dmg).1)[i]? = enemies[i]? :=
              List.getElem?_set_ne hji
            obtain ⟨e', h1, h2⟩ :=
              ih (enemies.set j (f.take_damage dmg).1)
                (money + (f.take_damage dmg).2) i e (by rw [hset]; exact he)
            refine ⟨e', h1, ?_⟩
            rw [h2, List.count_cons]
            simp [hji]

/-- Health of the enemy at an index after the whole collision damage
loop, as a weighted sum over the collision dict. -/
lemma apply_entries_get :
    ∀ (entries : List (ℤ × List ℕ)) (enemies : List Enemy) (money : ℤ)
      (i : ℕ) (e : Enemy),
      enemies[i]? = some e →
      ∃ e', ((apply_entries enemies money entries).1)[i]? = some e' ∧
        e'.health =
          e.health - (entries.map fun ent => ent.1 * (ent.2.count i : ℤ)).sum := by
  intro entries
  induction entries with
  | nil =>
      intro enemies money i e he
      exact ⟨e, he, by simp [apply_entries]⟩
  | cons ent entries ih =>
      intro enemies money i e he
      obtain ⟨e1, h1, h2⟩ := apply_idxs_get ent.1 ent.2 enemies money i e he
      obtain ⟨e2, h3, h4⟩ :=
        ih (ent.2.foldl (fun a j => apply_damage_at a.1 a.2 j ent.1) (enemies, money)).1
          (ent.2.foldl (fun a j => apply_damage_at a.1 a.2 j ent.1) (enemies, money)).2
          i e1 h1
      refine ⟨e2, ?_, ?_⟩
      · exact h3
      · rw [h4, h2, List.map_cons, List.sum_cons]
        ring

/-- A dead bullet, or one with an empty hit list, contributes no entry to
the collision dict. -/
lemma collision_entries_cons_skip (b : Bullet) (bs : List Bullet)
    (enemies : List Enemy)
    (h : b.alive = false ∨ (bullet_hits b enemies).isEmpty = true) :
    collision_entries (b :: bs) enemies = collision_entries bs enemies := by
  rcases h with h | h
  · simp [collision_entries, List.filterMap_cons, h]
  · rw [List.isEmpty_iff] at h
    simp [collision_entries, List.filterMap_cons, h]

/-- A live bullet with a non-empty hit list contributes its damage and hit
list to the collision dict. -/
lemma collision_entries_cons_keep (b : Bullet) (bs : List Bullet)
    (enemies : List Enemy) (hb : b.alive = true)
    (hhs : (bullet_hits b enemies).isEmpty = false) :
    collision_entries (b :: bs) enemies =
      (b.damage, bullet_hits b enemies) :: collision_entries bs enemies := by
  have h' : bullet_hits b enemies ≠ [] := by
    intro hnil
    rw [hnil] at hhs
    exact Bool.noConfusion hhs
  simp [collision_entries, List.filterMap_cons, hb, h']

/-- The weighted damage sum over the collision dict equals a plain filter
of the bullet list. -/
lemma entries_weighted_sum (enemies : List Enemy) (i : ℕ) (e : Enemy)
    (he : enemies[i]? = some e) :
    ∀ bullets : List Bullet,
      ((collision_entries bullets enemies).map
        fun ent => ent.1 * (ent.2.count i : ℤ)).sum =
      ((bullets.filter fun b =>
          b.alive && (e.alive && b.rect.colliderect e.rect)).map Bullet.damage).sum := by
  intro bullets
  induction bullets with
  | nil => simp [collision_entries]
  | cons b bs ih =>
      cases hb : b.alive with
      | false =>
          rw [collision_entries_cons_skip b bs enemies (Or.inl hb),
            List.filter_cons_of_neg (by simp [hb])]
          exact ih
      | true =>
          cases hhs : (bullet_hits b enemies).isEmpty with
          | true =>
              have hcol : (e.alive && b.rect.colliderect e.rect) = false := by
                cases hcc : e.alive && b.rect.colliderect e.rect
                · rfl
                · have hm := (bullet_hits_pred b enemies i e he).mpr hcc
                  rw [List.isEmpty_iff.mp hhs] at hm
                  exact absurd hm (List.not_mem_nil i)
              rw [collision_entries_cons_skip b bs enemies (Or.inr hhs),
                List.filter_cons_of_neg (by simp [hcol])]
              exact ih
          | false =>
              rw [collision_entries_cons_keep b bs enemies hb hhs, List.map_cons,
                List.sum_cons, bullet_hits_count b enemies i e he]
              cases hcol : e.alive && b.rect.colliderect e.rect with
              | false =>
                  rw [List.filter_cons_of_neg (by simp [hcol])]
                  simp only [Bool.false_eq_true, if_false, Nat.cast_zero,
                    mul_zero, zero_add]
                  exact ih
              | true =>
                  rw [List.filter_cons_of_pos (by simp [hb, hcol]),
                    List.map_cons, List.sum_cons, ih]
                  simp

/-- C2 (amended): when a live projectile overlaps one or more live
enemies it is removed, but it damages EVERY live enemy overlapping it,
not only the first one found: each enemy's health drops by the sum of the
payloads of all live bullets whose rects overlap its rect (dead enemies,
no longer in the group, are not hit). -/
theorem collision_damages_every_overlapping_enemy :
    ∀ (bullets : List Bullet) (enemies : List Enemy) (money : ℤ)
      (i : ℕ) (e : Enemy),
      enemies[i]? = some e →
      (∃ e', ((resolve_collisions bullets enemies money).2.1)[i]? = some e' ∧
          e'.health = e.health -
            (if e.alive = true then incoming_damage bullets e else 0)) ∧
      ((resolve_collisions bullets enemies money).1 = bullets.map fun b =>
          if b.alive && !(bullet_hits b enemies).isEmpty then
            { b with alive := false }
          else b) ∧
      (∀ b : Bullet, bullet_hits b enemies = [] ↔
          ∀ (j : ℕ) (e2 : Enemy), enemies[j]? = some e2 → e2.alive = true →
            b.rect.colliderect e2.rect = false) := by
  intro bullets enemies money i e he
  refine ⟨?_, rfl, ?_⟩
  · obtain ⟨e', h1, h2⟩ :=
      apply_entries_get (collision_entries bullets enemies) enemies money i e he
    refine ⟨e', h1, ?_⟩
    rw [h2, entries_weighted_sum enemies i e he bullets]
    cases ha : e.alive with
    | true =>
        simp only [if_true, incoming_damage, ha, Bool.true_and]
    | false =>
        simp only [Bool.false_eq_true, if_false, ha, Bool.and_false,
          Bool.false_and, List.filter_false, List.map_nil, List.sum_nil, sub_zero]
  · intro b
    constructor
    · intro hempty j e2 hj ha2
      by_contra h
      have h' : b.rect.colliderect e2.rect = true := by
        revert h
        cases b.rect.colliderect e2.rect <;> simp
      have hm : j ∈ bullet_hits b enemies :=
        (bullet_hits_pred b enemies j e2 hj).mpr (by rw [ha2, h']; rfl)
      rw [hempty] at hm
      exact List.not_mem_nil j hm
    · intro hall
      by_contra hne
      obtain ⟨j, hj⟩ := List.exists_mem_of_ne_nil _ hne
      have hp := List.of_mem_filter hj
      cases hj2 : enemies[j]? with
      | none => rw [hj2] at hp; exact Bool.noConfusion hp
      | some e2 =>
          rw [hj2] at hp
          rw [Bool.and_eq_true] at hp
          have hc2 : b.rect.colliderect e2.rect = true := hp.2
          rw [hall j e2 hj2 hp.1] at hc2
          exact Bool.noConfusion hc2

/-- Witness for the amended C2 theorem: the second of two enemies
overlapping a single payload-5 bullet also loses exactly 5 health. -/
theorem collision_damages_every_overlapping_enemy_witness :
    ([test_enemy (rect_at 0 0) 20 1, test_enemy (rect_at 5 5) 30 1][1]? =
        some (test_enemy (rect_at 5 5) 30 1)) ∧
    (∃ e', ((resolve_collisions [test_bullet (rect_at 0 0) 5]
        [test_enemy (rect_at 0 0) 20 1, test_enemy (rect_at 5 5) 30 1] 0).2.1)[1]? =
          some e' ∧
        e'.health = (test_enemy (rect_at 5 5) 30 1).health -
          (if (test_enemy (rect_at 5 5) 30 1).alive = true
           then incoming_damage [test_bullet (rect_at 0 0) 5]
             (test_enemy (rect_at 5 5) 30 1)
           else 0)) :=
  ⟨rfl,
    (collision_damages_every_overlapping_enemy
      [test_bullet (rect_at 0 0) 5]
      [test_enemy (rect_at 0 0) 20 1, test_enemy (rect_at 5 5) 30 1] 0 1
      (test_enemy (rect_at 5 5) 30 1) rfl).1⟩

/-- C2 counterexample: one bullet overlapping two live enemies damages
both of them (healths 20 and 30 drop to 15 and 25), refuting
"exactly one enemy receives damage ... every other enemy is unaffected". -/
theorem collision_not_limited_to_first_enemy :
    ((resolve_collisions [test_bullet (rect_at 0 0) 5]
        [test_enemy (rect_at 0 0) 20 1, test_enemy (rect_at 5 5) 30 1] 0).2.1.map
      Enemy.health) = [15, 25] ∧
    ([test_enemy (rect_at 0 0) 20 1, test_enemy (rect_at 5 5) 30 1].map Enemy.health)
      = [20, 30] ∧
    (rect_at 0 0).colliderect (rect_at 0 0) = true ∧
    (rect_at 0 0).colliderect (rect_at 5 5) = true := ⟨rfl, rfl, rfl, rfl⟩

/-- Characterization of the basic target scan: starting from a
well-formed accumulator, the scan returns `none` only if it started empty
and nothing is in range, and returns the first enemy attaining the
minimal in-range distance otherwise. -/
lemma find_target_go_char (pos : Vec2) (rng : ℝ) :
    ∀ (es : List Enemy) (best : Option Enemy) (bd : WithTop ℝ),
      (best = none → bd = ⊤) →
      (∀ b, best = some b → bd = (Vec2.distance_to pos b.position : WithTop ℝ)) →
      ((find_target_go pos rng es (best, bd)).1 = none →
          best = none ∧ ∀ e ∈ es, ¬ Vec2.distance_to pos e.position ≤ rng) ∧
      (∀ b, (find_target_go pos rng es (best, bd)).1 = some b →
          ((best = some b ∧
            ∀ e ∈ es, Vec2.distance_to pos e.position ≤ rng →
              Vec2.distance_to pos b.position ≤ Vec2.distance_to pos e.position) ∨
           (Vec2.distance_to pos b.position ≤ rng ∧
            (Vec2.distance_to pos b.position : WithTop ℝ) < bd ∧
            ∃ l r, es = l ++ b :: r ∧
              (∀ e ∈ l, Vec2.distance_to pos e.position ≤ rng →
                Vec2.distance_to pos b.position < Vec2.distance_to pos e.position) ∧
              (∀ e ∈ r, Vec2.distance_to pos e.position ≤ rng →
                Vec2.distance_to pos b.position ≤ Vec2.distance_to pos e.position)))) := by
  intro es
  induction es with
  | nil =>
      intro best bd hwf1 hwf2
      constructor
      · intro h
        exact ⟨h, by simp⟩
      · intro b hb
        exact Or.inl ⟨hb, by simp⟩
  | cons e es ih =>
      intro best bd hwf1 hwf2
      have hstep : find_target_go pos rng (e :: es) (best, bd) =
          find_target_go pos rng es
            (if Vec2.distance_to pos e.position ≤ rng ∧
                (Vec2.distance_to pos e.position : WithTop ℝ) < bd then
              (some e, (Vec2.distance_to pos e.position : WithTop ℝ))
            else (best, bd)) := rfl
      by_cases hc : Vec2.distance_to pos e.position ≤ rng ∧
          (Vec2.distance_to pos e.position : WithTop ℝ) < bd
      · rw [hstep, if_pos hc]
        have IH := ih (some e) (Vec2.distance_to pos e.position : WithTop ℝ)
          (fun h => Option.noConfusion h)
          (fun b hb => by rw [← Option.some_inj.mp hb])
        constructor
        · intro hnone
          exact absurd (IH.1 hnone).1 (by simp)
        · intro b hb
          rcases IH.2 b hb with ⟨hbe, hmin⟩ | ⟨hbr, hblt, l, r, hsplit, hl, hr⟩
          · have heb : e = b := Option.some_inj.mp hbe
            subst heb
            exact Or.inr ⟨hc.1, hc.2, [], es, rfl, by simp, hmin⟩
          · refine Or.inr ⟨hbr, lt_trans hblt hc.2, e :: l, r, by rw [hsplit]; rfl,
              ?_, hr⟩
            intro x hx hxr
            rcases List.mem_cons.mp hx with hxe | hxs
            · subst hxe
              exact WithTop.coe_lt_coe.mp hblt
            · exact hl x hxs hxr
      · rw [hstep, if_neg hc]
        have IH := ih best bd hwf1 hwf2
        constructor
        · intro hnone
          obtain ⟨hbn, hes⟩ := IH.1 hnone
          refine ⟨hbn, ?_⟩
          intro x hx
          rcases List.mem_cons.mp hx with hxe | hxs
          · subst hxe
            intro hd
            exact hc ⟨hd, hwf1 hbn ▸ WithTop.coe_lt_top _⟩
          · exact hes x hxs
        · intro b hb
          rcases IH.2 b hb with ⟨hbb, hmin⟩ | ⟨hbr, hblt, l, r, hsplit, hl, hr⟩
          · left
            refine ⟨hbb, ?_⟩
            intro x hx hxr
            rcases List.mem_cons.mp hx with hxe | hxs
            · subst hxe
              have hble : bd ≤ (Vec2.distance_to pos x.position : WithTop ℝ) :=
                not_lt.mp (fun hlt => hc ⟨hxr, hlt⟩)
              rw [hwf2 b hbb] at hble
              exact WithTop.coe_le_coe.mp hble
            · exact hmin x hxs hxr
          · right
            refine ⟨hbr, hblt, e :: l, r, by rw [hsplit]; rfl, ?_, hr⟩
            intro x hx hxr
            rcases List.mem_cons.mp hx with hxe | hxs
            · subst hxe
              have hble : bd ≤ (Vec2.distance_to pos x.position : WithTop ℝ) :=
                not_lt.mp (fun hlt => hc ⟨hxr, hlt⟩)
              exact WithTop.coe_lt_coe.mp (lt_of_lt_of_le hblt hble)
            · exact hl x hxs hxr

/-- Characterization of the sniper target scan: starting from a
well-formed accumulator, it returns the first enemy attaining the maximal
health among in-range enemies whose health exceeds the starting maximum
(initially 0). -/
lemma sniper_find_target_go_char (pos : Vec2) (rng : ℝ) :
    ∀ (es : List Enemy) (best : Option Enemy) (mh : ℤ),
      (best = none → mh = 0) →
      (∀ b, best = some b → mh = b.health) →
      ((sniper_find_target_go pos rng es (best, mh)).1 = none →
          best = none ∧
          ∀ e ∈ es, ¬ (Vec2.distance_to pos e.position ≤ rng ∧ mh < e.health)) ∧
      (∀ b, (sniper_find_target_go pos rng es (best, mh)).1 = some b →
          ((best = some b ∧
            ∀ e ∈ es, Vec2.distance_to pos e.position ≤ rng →
              e.health ≤ b.health) ∨
           (Vec2.distance_to pos b.position ≤ rng ∧ mh < b.health ∧
            ∃ l r, es = l ++ b :: r ∧
              (∀ e ∈ l, Vec2.distance_to pos e.position ≤ rng →
                e.health < b.health) ∧
              (∀ e ∈ r, Vec2.distance_to pos e.position ≤ rng →
                e.health ≤ b.health)))) := by
  intro es
  induction es with
  | nil =>
      intro best mh hwf1 hwf2
      constructor
      · intro h
        exact ⟨h, by simp⟩
      · intro b hb
        exact Or.inl ⟨hb, by simp⟩
  | cons e es ih =>
      intro best mh hwf1 hwf2
      have hstep : sniper_find_target_go pos rng (e :: es) (best, mh) =
          sniper_find_target_go pos rng es
            (if Vec2.distance_to pos e.position ≤ rng ∧ mh < e.health then
              (some e, e.health)
            else (best, mh)) := rfl
      by_cases hc : Vec2.distance_to pos e.position ≤ rng ∧ mh < e.health
      · rw [hstep, if_pos hc]
        have IH := ih (some e) e.health
          (fun h => Option.noConfusion h)
          (fun b hb => by rw [← Option.some_inj.mp hb])
        constructor
        · intro hnone
          exact absurd (IH.1 hnone).1 (by simp)
        · intro b hb
          rcases IH.2 b hb with ⟨hbe, hmax⟩ | ⟨hbr, hbgt, l, r, hsplit, hl, hr⟩
          · have heb : e = b := Option.some_inj.mp hbe
            subst heb
            exact Or.inr ⟨hc.1, hc.2, [], es, rfl, by simp, hmax⟩
          · refine Or.inr ⟨hbr, lt_trans hc.2 hbgt, e :: l, r, by rw [hsplit]; rfl,
              ?_, hr⟩
            intro x hx hxr
            rcases List.mem_cons.mp hx with hxe | hxs
            · subst hxe
              exact hbgt
            · exact hl x hxs hxr
      · rw [hstep, if_neg hc]
        have IH := ih best mh hwf1 hwf2
        constructor
        · intro hnone
          obtain ⟨hbn, hes⟩ := IH.1 hnone
          refine ⟨hbn, ?_⟩
          intro x hx
          rcases List.mem_cons.mp hx with hxe | hxs
          · subst hxe
            exact hc
          · exact hes x hxs
        · intro b hb
          rcases IH.2 b hb with ⟨hbb, hmax⟩ | ⟨hbr, hbgt, l, r, hsplit, hl, hr⟩
          · left
            refine ⟨hbb, ?_⟩
            intro x hx hxr
            rcases List.mem_cons.mp hx with hxe | hxs
            · subst hxe
              have := fun hlt => hc ⟨hxr, hlt⟩
              rw [hwf2 b hbb] at this
              exact not_lt.mp this
            · exact hmax x hxs hxr
          · right
            refine ⟨hbr, hbgt, e :: l, r, by rw [hsplit]; rfl, ?_, hr⟩
            intro x hx hxr
            rcases List.mem_cons.mp hx with hxe | hxs
            · subst hxe
              exact lt_of_le_of_lt (not_lt.mp (fun hlt => hc ⟨hxr, hlt⟩)) hbgt
            · exact hl x hxs hxr

/-- C7 (amended): the basic `find_target` returns the nearest enemy
within `tower_range` (strict-less-than comparison, so distance ties favor
the earlier-scanned enemy), never an enemy outside range, and `none`
exactly when no enemy is in range.  The sniper `find_target` returns,
among in-range enemies with POSITIVE health, the one with strictly
greatest health (ties favor the earlier-scanned enemy), and `none`
exactly when no in-range enemy has positive health — an in-range enemy
with health `≤ 0` is never selected because the running maximum starts
at 0. -/
theorem find_target_policies :
    ∀ (t : Tower) (enemies : List Enemy),
      (t.find_target enemies = none ↔
        ∀ e ∈ enemies, ¬ Vec2.distance_to t.position e.position ≤ t.tower_range) ∧
      (∀ b, t.find_target enemies = some b →
        Vec2.distance_to t.position b.position ≤ t.tower_range ∧
        (∀ e ∈ enemies, Vec2.distance_to t.position e.position ≤ t.tower_range →
          Vec2.distance_to t.position b.position ≤
            Vec2.distance_to t.position e.position) ∧
        ∃ l r, enemies = l ++ b :: r ∧
          ∀ e ∈ l, Vec2.distance_to t.position e.position ≤ t.tower_range →
            Vec2.distance_to t.position b.position <
              Vec2.distance_to t.position e.position) ∧
      (t.sniper_find_target enemies = none ↔
        ∀ e ∈ enemies, ¬ (Vec2.distance_to t.position e.position ≤ t.tower_range ∧
          0 < e.health)) ∧
      (∀ b, t.sniper_find_target enemies = some b →
        Vec2.distance_to t.position b.position ≤ t.tower_range ∧ 0 < b.health ∧
        (∀ e ∈ enemies, Vec2.distance_to t.position e.position ≤ t.tower_range →
          e.health ≤ b.health) ∧
        ∃ l r, enemies = l ++ b :: r ∧
          ∀ e ∈ l, Vec2.distance_to t.position e.position ≤ t.tower_range →
            e.health < b.health) := by
  intro t enemies
  have hchar := find_target_go_char t.position t.tower_range enemies none ⊤
    (fun _ => rfl) (fun b hb => Option.noConfusion hb)
  have schar := sniper_find_target_go_char t.position t.tower_range enemies none 0
    (fun _ => rfl) (fun b hb => Option.noConfusion hb)
  refine ⟨⟨?_, ?_⟩, ?_, ⟨?_, ?_⟩, ?_⟩
  · intro h
    exact (hchar.1 h).2
  · intro hall
    cases hres : t.find_target enemies with
    | none => rfl
    | some b =>
        rcases hchar.2 b hres with ⟨hbb, _⟩ | ⟨hbr, _, l, r, hsplit, _, _⟩
        · exact Option.noConfusion hbb
        · have hmem : b ∈ enemies := by
            rw [hsplit]
            exact List.mem_append_right _ (List.mem_cons_self _ _)
          exact absurd hbr (hall b hmem)
  · intro b hb
    rcases hchar.2 b hb with ⟨hbb, _⟩ | ⟨hbr, _, l, r, hsplit, hl, hr⟩
    · exact Option.noConfusion hbb
    · refine ⟨hbr, ?_, l, r, hsplit, hl⟩
      intro x hx hxr
      rw [hsplit] at hx
      rcases List.mem_append.mp hx with hxl | hxbr
      · exact le_of_lt (hl x hxl hxr)
      · rcases List.mem_cons.mp hxbr with hxb | hxr2
        · rw [hxb]
        · exact hr x hxr2 hxr
  · intro h
    exact (schar.1 h).2
  · intro hall
    cases hres : t.sniper_find_target enemies with
    | none => rfl
    | some b =>
        rcases schar.2 b hres with ⟨hbb, _⟩ | ⟨hbr, hpos, l, r, hsplit, _, _⟩
        · exact Option.noConfusion hbb
        · have hmem : b ∈ enemies := by
            rw [hsplit]
            exact List.mem_append_right _ (List.mem_cons_self _ _)
          exact absurd ⟨hbr, hpos⟩ (hall b hmem)
  · intro b hb
    rcases schar.2 b hb with ⟨hbb, _⟩ | ⟨hbr, hpos, l, r, hsplit, hl, hr⟩
    · exact Option.noConfusion hbb
    · refine ⟨hbr, hpos, ?_, l, r, hsplit, hl⟩
      intro x hx hxr
      rw [hsplit] at hx
      rcases List.mem_append.mp hx with hxl | hxbr
      · exact le_of_lt (hl x hxl hxr)
      · rcases List.mem_cons.mp hxbr with hxb | hxr2
        · rw [hxb]
        · exact hr x hxr2 hxr

/-- Distance between two points on the same horizontal line. -/
lemma distance_to_horiz (x1 x2 y : ℝ) (h : x1 ≤ x2) :
    Vec2.distance_to (x1, y) (x2, y) = x2 - x1 := by
  unfold Vec2.distance_to
  simp only [sub_self]
  rw [show ((0 : ℝ)) ^ 2 = 0 by norm_num, add_zero]
  exact Real.sqrt_sq (by linarith)

/-- C7 counterexample: a sniper tower with a single in-range live enemy of
health 0 returns no target, although the claim (greatest current health
among in-range enemies, none only when none is in range) requires that
enemy to be selected. -/
theorem sniper_ignores_zero_health_enemy :
    (mk_sniper_tower ((0 : ℝ), (0 : ℝ)) 0).sniper_find_target [target_enemy 0 0]
      = none ∧
    Vec2.distance_to (mk_sniper_tower ((0 : ℝ), (0 : ℝ)) 0).position
        (target_enemy 0 0).position ≤
      (mk_sniper_tower ((0 : ℝ), (0 : ℝ)) 0).tower_range ∧
    (target_enemy 0 0).alive = true := by
  refine ⟨?_, ?_, rfl⟩
  · show (sniper_find_target_go ((0 : ℝ), (0 : ℝ)) (300 : ℝ)
      [target_enemy 0 0] (none, 0)).1 = none
    have h1 : sniper_find_target_go ((0 : ℝ), (0 : ℝ)) (300 : ℝ)
        [target_enemy 0 0] (none, 0) =
        sniper_find_target_go ((0 : ℝ), (0 : ℝ)) (300 : ℝ) [] (none, 0) := by
      show sniper_find_target_go ((0 : ℝ), (0 : ℝ)) (300 : ℝ) []
          (if Vec2.distance_to ((0 : ℝ), (0 : ℝ)) (target_enemy 0 0).position ≤ 300 ∧
              (0 : ℤ) < (target_enemy 0 0).health
           then (some (target_enemy 0 0), (target_enemy 0 0).health)
           else (none, 0)) = _
      rw [if_neg]
      rintro ⟨-, h⟩
      exact absurd h (by norm_num [target_enemy])
    rw [h1]
    rfl
  · show Vec2.distance_to ((0 : ℝ), (0 : ℝ)) ((0 : ℝ), (0 : ℝ)) ≤ (300 : ℝ)
    rw [distance_to_horiz 0 0 0 le_rfl]
    norm_num

/-- Witness for the amended C7 theorem, on the spec's own test vectors:
with range 150 and enemies at distances 200, 50, 120 the basic tower
selects the distance-50 enemy (which is in range); with healths 30, 80,
50 all in range the sniper selects the health-80 enemy (which has
positive health). -/
theorem find_target_policies_witness :
    ((mk_basic_tower ((0 : ℝ), (0 : ℝ)) 0).find_target
        [target_enemy 200 1, target_enemy 50 1, target_enemy 120 1] =
      some (target_enemy 50 1)) ∧
    (Vec2.distance_to (mk_basic_tower ((0 : ℝ), (0 : ℝ)) 0).position
        (target_enemy 50 1).position ≤
      (mk_basic_tower ((0 : ℝ), (0 : ℝ)) 0).tower_range) ∧
    ((mk_sniper_tower ((0 : ℝ), (0 : ℝ)) 0).sniper_find_target
        [target_enemy 0 30, target_enemy 0 80, target_enemy 0 50] =
      some (target_enemy 0 80)) ∧
    (0 < (target_enemy 0 80).health) := by
  have hd0 : Vec2.distance_to ((0 : ℝ), (0 : ℝ)) ((0 : ℝ), (0 : ℝ)) = 0 := by
    rw [distance_to_horiz 0 0 0 le_rfl]; norm_num
  have hd200 : Vec2.distance_to ((0 : ℝ), (0 : ℝ)) ((200 : ℝ), (0 : ℝ)) = 200 := by
    rw [distance_to_horiz 0 200 0 (by norm_num)]; norm_num
  have hd50 : Vec2.distance_to ((0 : ℝ), (0 : ℝ)) ((50 : ℝ), (0 : ℝ)) = 50 := by
    rw [distance_to_horiz 0 50 0 (by norm_num)]; norm_num
  have hd120 : Vec2.distance_to ((0 : ℝ), (0 : ℝ)) ((120 : ℝ), (0 : ℝ)) = 120 := by
    rw [distance_to_horiz 0 120 0 (by norm_num)]; norm_num
  have hbasic : (mk_basic_tower ((0 : ℝ), (0 : ℝ)) 0).find_target
      [target_enemy 200 1, target_enemy 50 1, target_enemy 120 1] =
      some (target_enemy 50 1) := by
    show (find_target_go ((0 : ℝ), (0 : ℝ)) (150 : ℝ)
      [target_enemy 200 1, target_enemy 50 1, target_enemy 120 1] (none, ⊤)).1 =
      some (target_enemy 50 1)
    have h1 : find_target_go ((0 : ℝ), (0 : ℝ)) (150 : ℝ)
        [target_enemy 200 1, target_enemy 50 1, target_enemy 120 1] (none, ⊤) =
        find_target_go ((0 : ℝ), (0 : ℝ)) (150 : ℝ)
          [target_enemy 50 1, target_enemy 120 1] (none, ⊤) := by
      show find_target_go ((0 : ℝ), (0 : ℝ)) (150 : ℝ)
          [target_enemy 50 1, target_enemy 120 1]
          (if Vec2.distance_to ((0 : ℝ), (0 : ℝ)) (target_enemy 200 1).position ≤ 150 ∧
              (Vec2.distance_to ((0 : ℝ), (0 : ℝ)) (target_enemy 200 1).position :
                WithTop ℝ) < ⊤
           then (some (target_enemy 200 1),
             (Vec2.distance_to ((0 : ℝ), (0 : ℝ)) (target_enemy 200 1).position :
               WithTop ℝ))
           else (none, ⊤)) = _
      rw [if_neg]
      show ¬ (Vec2.distance_to ((0 : ℝ), (0 : ℝ)) ((200 : ℝ), (0 : ℝ)) ≤ 150 ∧ _)
      rw [hd200]
      rintro ⟨h, -⟩
      norm_num at h
    have h2 : find_target_go ((0 : ℝ), (0 : ℝ)) (150 : ℝ)
        [target_enemy 50 1, target_enemy 120 1] (none, ⊤) =
        find_target_go ((0 : ℝ), (0 : ℝ)) (150 : ℝ) [target_enemy 120 1]
          (some (target_enemy 50 1),
           (Vec2.distance_to ((0 : ℝ), (0 : ℝ)) (target_enemy 50 1).position :
             WithTop ℝ)) := by
      show find_target_go ((0 : ℝ), (0 : ℝ)) (150 : ℝ) [target_enemy 120 1]
          (if Vec2.distance_to ((0 : ℝ), (0 : ℝ)) (target_enemy 50 1).position ≤ 150 ∧
              (Vec2.distance_to ((0 : ℝ), (0 : ℝ)) (target_enemy 50 1).position :
                WithTop ℝ) < ⊤
           then (some (target_enemy 50 1),
             (Vec2.distance_to ((0 : ℝ), (0 : ℝ)) (target_enemy 50 1).position :
               WithTop ℝ))
           else (none, ⊤)) = _
      rw [if_pos]
      constructor
      · show Vec2.distance_to ((0 : ℝ), (0 : ℝ)) ((50 : ℝ), (0 : ℝ)) ≤ 150
        rw [hd50]
        norm_num
      · exact WithTop.coe_lt_top _
    have h3 : find_target_go ((0 : ℝ), (0 : ℝ)) (150 : ℝ) [target_enemy 120 1]
        (some (target_enemy 50 1),
         (Vec2.distance_to ((0 : ℝ), (0 : ℝ)) (target_enemy 50 1).position :
           WithTop ℝ)) =
        (some (target_enemy 50 1),
         (Vec2.distance_to ((0 : ℝ), (0 : ℝ)) (target_enemy 50 1).position :
           WithTop ℝ)) := by
      show find_target_go ((0 : ℝ), (0 : ℝ)) (150 : ℝ) []
          (if Vec2.distance_to ((0 : ℝ), (0 : ℝ)) (target_enemy 120 1).position ≤ 150 ∧
              (Vec2.distance_to ((0 : ℝ), (0 : ℝ)) (target_enemy 120 1).position :
                WithTop ℝ) <
                (Vec2.distance_to ((0 : ℝ), (0 : ℝ)) (target_enemy 50 1).position :
                  WithTop ℝ)
           then (some (target_enemy 120 1),
             (Vec2.distance_to ((0 : ℝ), (0 : ℝ)) (target_enemy 120 1).position :
               WithTop ℝ))
           else _) = _
      have hneg : ¬ (Vec2.distance_to ((0 : ℝ), (0 : ℝ))
          (target_enemy 120 1).position ≤ 150 ∧
          (Vec2.distance_to ((0 : ℝ), (0 : ℝ)) (target_enemy 120 1).position :
            WithTop ℝ) <
            (Vec2.distance_to ((0 : ℝ), (0 : ℝ)) (target_enemy 50 1).position :
              WithTop ℝ)) := by
        rintro ⟨-, h⟩
        rw [show (target_enemy 120 1).position = ((120 : ℝ), (0 : ℝ)) from rfl,
          show (target_enemy 50 1).position = ((50 : ℝ), (0 : ℝ)) from rfl,
          hd120, hd50] at h
        have := WithTop.coe_lt_coe.mp h
        norm_num at this
      rw [if_neg hneg]
      rfl
    rw [h1, h2, h3]
  have hsniper : (mk_sniper_tower ((0 : ℝ), (0 : ℝ)) 0).sniper_find_target
      [target_enemy 0 30, target_enemy 0 80, target_enemy 0 50] =
      some (target_enemy 0 80) := by
    show (sniper_find_target_go ((0 : ℝ), (0 : ℝ)) (300 : ℝ)
      [target_enemy 0 30, target_enemy 0 80, target_enemy 0 50] (none, 0)).1 =
      some (target_enemy 0 80)
    have h1 : sniper_find_target_go ((0 : ℝ), (0 : ℝ)) (300 : ℝ)
        [target_enemy 0 30, target_enemy 0 80, target_enemy 0 50] (none, 0) =
        sniper_find_target_go ((0 : ℝ), (0 : ℝ)) (300 : ℝ)
          [target_enemy 0 80, target_enemy 0 50] (some (target_enemy 0 30), 30) := by
      show sniper_find_target_go ((0 : ℝ), (0 : ℝ)) (300 : ℝ)
          [target_enemy 0 80, target_enemy 0 50]
          (if Vec2.distance_to ((0 : ℝ), (0 : ℝ)) (target_enemy 0 30).position ≤ 300 ∧
              (0 : ℤ) < (target_enemy 0 30).health
           then (some (target_enemy 0 30), (target_enemy 0 30).health)
           else (none, 0)) = _
      have hpos : Vec2.distance_to ((0 : ℝ), (0 : ℝ))
          (target_enemy 0 30).position ≤ 300 ∧ (0 : ℤ) < (target_enemy 0 30).health := by
        constructor
        · rw [show (target_enemy 0 30).position = ((0 : ℝ), (0 : ℝ)) from rfl, hd0]
          norm_num
        · norm_num [target_enemy]
      rw [if_pos hpos]
      rfl
    have h2 : sniper_find_target_go ((0 : ℝ), (0 : ℝ)) (300 : ℝ)
        [target_enemy 0 80, target_enemy 0 50] (some (target_enemy 0 30), 30) =
        sniper_find_target_go ((0 : ℝ), (0 : ℝ)) (300 : ℝ)
          [target_enemy 0 50] (some (target_enemy 0 80), 80) := by
      show sniper_find_target_go ((0 : ℝ), (0 : ℝ)) (300 : ℝ) [target_enemy 0 50]
          (if Vec2.distance_to ((0 : ℝ), (0 : ℝ)) (target_enemy 0 80).position ≤ 300 ∧
              (30 : ℤ) < (target_enemy 0 80).health
           then (some (target_enemy 0 80), (target_enemy 0 80).health)
           else (some (target_enemy 0 30), 30)) = _
      have hpos : Vec2.distance_to ((0 : ℝ), (0 : ℝ))
          (target_enemy 0 80).position ≤ 300 ∧
          (30 : ℤ) < (target_enemy 0 80).health := by
        constructor
        · rw [show (target_enemy 0 80).position = ((0 : ℝ), (0 : ℝ)) from rfl, hd0]
          norm_num
        · norm_num [target_enemy]
      rw [if_pos hpos]
      rfl
    have h3 : sniper_find_target_go ((0 : ℝ), (0 : ℝ)) (300 : ℝ)
        [target_enemy 0 50] (some (target_enemy 0 80), 80) =
        (some (target_enemy 0 80), 80) := by
      show sniper_find_target_go ((0 : ℝ), (0 : ℝ)) (300 : ℝ) []
          (if Vec2.distance_to ((0 : ℝ), (0 : ℝ)) (target_enemy 0 50).position ≤ 300 ∧
              (80 : ℤ) < (target_enemy 0 50).health
           then (some (target_enemy 0 50), (target_enemy 0 50).health)
           else (some (target_enemy 0 80), 80)) = _
      have hneg : ¬ (Vec2.distance_to ((0 : ℝ), (0 : ℝ))
          (target_enemy 0 50).position ≤ 300 ∧
          (80 : ℤ) < (target_enemy 0 50).health) := by
        rintro ⟨-, h⟩
        exact absurd h (by norm_num [target_enemy])
      rw [if_neg hneg]
      rfl
    rw [h1, h2, h3]
  refine ⟨hbasic, ?_, hsniper, ?_⟩
  · exact ((find_target_policies (mk_basic_tower ((0 : ℝ), (0 : ℝ)) 0)
      [target_enemy 200 1, target_enemy 50 1, target_enemy 120 1]).2.1
      (target_enemy 50 1) hbasic).1
  · exact ((find_target_policies (mk_sniper_tower ((0 : ℝ), (0 : ℝ)) 0)
      [target_enemy 0 30, target_enemy 0 80, target_enemy 0 50]).2.2.2
      (target_enemy 0 80) hsniper).2.1

/-- When `Tower.update` emits a bullet, the cooldown had elapsed, the
last-shot time is reset to the call time, and a target had been found. -/
lemma update_step_fired (t : Tower) (es : List Enemy) (now : ℤ) (p : Vec2)
    (h : (t.update_step es now).2.1 = some p) :
    t.rate_of_fire ≤ now - t.last_shot_time ∧
    (t.update_step es now).1 = { t with last_shot_time := now } ∧
    t.dispatch_find_target es ≠ none := by
  unfold Tower.update_step at h ⊢
  cases hv : t.variant with
  | money =>
      rw [hv] at h
      dsimp only at h
      by_cases hg : t.generation_interval < now - t.last_generation_time <;>
        simp [hg] at h
  | basic =>
      rw [hv] at h
      dsimp only at h ⊢
      cases hf : t.dispatch_find_target es with
      | none =>
          rw [hf] at h
          exact Option.noConfusion h
      | some target =>
          rw [hf] at h
          dsimp only at h ⊢
          by_cases hc : t.rate_of_fire ≤ now - t.last_shot_time
          · rw [if_pos hc] at h ⊢
            exact ⟨hc, rfl, fun hn => Option.noConfusion hn⟩
          · rw [if_neg hc] at h
            exact Option.noConfusion h
  | sniper =>
      rw [hv] at h
      dsimp only at h ⊢
      cases hf : t.dispatch_find_target es with
      | none =>
          rw [hf] at h
          exact Option.noConfusion h
      | some target =>
          rw [hf] at h
          dsimp only at h ⊢
          by_cases hc : t.rate_of_fire ≤ now - t.last_shot_time
          · rw [if_pos hc] at h ⊢
            exact ⟨hc, rfl, fun hn => Option.noConfusion hn⟩
          · rw [if_neg hc] at h
            exact Option.noConfusion h

/-- When `Tower.update` does not emit a bullet, the last-shot time is
unchanged. -/
lemma update_step_not_fired (t : Tower) (es : List Enemy) (now : ℤ)
    (h : (t.update_step es now).2.1 = none) :
    (t.update_step es now).1.last_shot_time = t.last_shot_time := by
  unfold Tower.update_step at h ⊢
  cases hv : t.variant with
  | money =>
      rw [hv] at h
      dsimp only at h ⊢
      by_cases hg : t.generation_interval < now - t.last_generation_time <;>
        simp [hg]
  | basic =>
      rw [hv] at h
      dsimp only at h ⊢
      cases hf : t.dispatch_find_target es with
      | none => rfl
      | some target =>
          rw [hf] at h
          dsimp only at h ⊢
          by_cases hc : t.rate_of_fire ≤ now - t.last_shot_time
          · rw [if_pos hc] at h
            exact Option.noConfusion h
          · rw [if_neg hc]
  | sniper =>
      rw [hv] at h
      dsimp only at h ⊢
      cases hf : t.dispatch_find_target es with
      | none => rfl
      | some target =>
          rw [hf] at h
          dsimp only at h ⊢
          by_cases hc : t.rate_of_fire ≤ now - t.last_shot_time
          · rw [if_pos hc] at h
            exact Option.noConfusion h
          · rw [if_neg hc]

/-- `Tower.update` never changes the fire interval. -/
lemma update_step_rate (t : Tower) (es : List Enemy) (now : ℤ) :
    (t.update_step es now).1.rate_of_fire = t.rate_of_fire := by
  unfold Tower.update_step
  cases hv : t.variant with
  | money =>
      dsimp only
      by_cases hg : t.generation_interval < now - t.last_generation_time <;>
        simp [hg]
  | basic =>
      dsimp only
      cases hf : t.dispatch_find_target es with
      | none => rfl
      | some target =>
          dsimp only
          by_cases hc : t.rate_of_fire ≤ now - t.last_shot_time
          · rw [if_pos hc]
          · rw [if_neg hc]
  | sniper =>
      dsimp only
      cases hf : t.dispatch_find_target es with
      | none => rfl
      | some target =>
          dsimp only
          by_cases hc : t.rate_of_fire ≤ now - t.last_shot_time
          · rw [if_pos hc]
          · rw [if_neg hc]

/-- `Tower.update` never changes the targeting policy: position, range and
variant are untouched, so the target found in later calls is the same
function of the enemy list. -/
lemma update_step_dispatch (t : Tower) (es : List Enemy) (now : ℤ)
    (es' : List Enemy) :
    (t.update_step es now).1.dispatch_find_target es' =
      t.dispatch_find_target es' := by
  unfold Tower.update_step
  cases hv : t.variant with
  | money =>
      dsimp only
      by_cases hg : t.generation_interval < now - t.last_generation_time
      · rw [if_pos hg]
        unfold Tower.dispatch_find_target
        rw [hv]
        rfl
      · rw [if_neg hg]
  | basic =>
      dsimp only
      cases hf : t.dispatch_find_target es with
      | none => rfl
      | some target =>
          dsimp only
          by_cases hc : t.rate_of_fire ≤ now - t.last_shot_time
          · rw [if_pos hc]
            unfold Tower.dispatch_find_target
            rw [hv]
            rfl
          · rw [if_neg hc]
  | sniper =>
      dsimp only
      cases hf : t.dispatch_find_target es with
      | none => rfl
      | some target =>
          dsimp only
          by_cases hc : t.rate_of_fire ≤ now - t.last_shot_time
          · rw [if_pos hc]
            unfold Tower.dispatch_find_target
            rw [hv]
            rfl
          · rw [if_neg hc]

/-- The shot times of a tower, prefixed by its initial last-shot time,
are spaced by at least the fire interval. -/
lemma run_shots_chain :
    ∀ (calls : List (List Enemy × ℤ)) (t : Tower),
      List.Chain' (fun a b => t.rate_of_fire ≤ b - a)
        (t.last_shot_time :: t.run_shots calls) := by
  intro calls
  induction calls with
  | nil =>
      intro t
      simp [Tower.run_shots]
  | cons c calls ih =>
      intro t
      obtain ⟨es, now⟩ := c
      cases hf : (t.update_step es now).2.1 with
      | none =>
          have hrun : t.run_shots ((es, now) :: calls) =
              (t.update_step es now).1.run_shots calls := by
            show (match (t.update_step es now).2.1 with
              | some _ => now :: (t.update_step es now).1.run_shots calls
              | none => (t.update_step es now).1.run_shots calls) = _
            rw [hf]
          rw [hrun]
          have hlast := update_step_not_fired t es now hf
          have hrate := update_step_rate t es now
          have h := ih (t.update_step es now).1
          rw [hlast, hrate] at h
          exact h
      | some p =>
          obtain ⟨hcool, hupd, -⟩ := update_step_fired t es now p hf
          have hrun : t.run_shots ((es, now) :: calls) =
              now :: (t.update_step es now).1.run_shots calls := by
            show (match (t.update_step es now).2.1 with
              | some _ => now :: (t.update_step es now).1.run_shots calls
              | none => (t.update_step es now).1.run_shots calls) = _
            rw [hf]
          rw [hrun, List.chain'_cons]
          refine ⟨hcool, ?_⟩
          rw [hupd]
          have h := ih { t with last_shot_time := now }
          simpa using h

/-- Every recorded shot originates from a call at that timestamp in which
a target was found. -/
lemma run_shots_sources :
    ∀ (calls : List (List Enemy × ℤ)) (t : Tower),
      ∀ time ∈ t.run_shots calls, ∃ c ∈ calls, c.2 = time ∧
        t.dispatch_find_target c.1 ≠ none := by
  intro calls
  induction calls with
  | nil =>
      intro t time htime
      simp [Tower.run_shots] at htime
  | cons c calls ih =>
      intro t time htime
      obtain ⟨es, now⟩ := c
      cases hf : (t.update_step es now).2.1 with
      | none =>
          have hrun : t.run_shots ((es, now) :: calls) =
              (t.update_step es now).1.run_shots calls := by
            show (match (t.update_step es now).2.1 with
              | some _ => now :: (t.update_step es now).1.run_shots calls
              | none => (t.update_step es now).1.run_shots calls) = _
            rw [hf]
          rw [hrun] at htime
          obtain ⟨c2, hc2, heq, hdisp⟩ := ih (t.update_step es now).1 time htime
          refine ⟨c2, List.mem_cons_of_mem _ hc2, heq, ?_⟩
          rw [update_step_dispatch t es now c2.1] at hdisp
          exact hdisp
      | some p =>
          have hrun : t.run_shots ((es, now) :: calls) =
              now :: (t.update_step es now).1.run_shots calls := by
            show (match (t.update_step es now).2.1 with
              | some _ => now :: (t.update_step es now).1.run_shots calls
              | none => (t.update_step es now).1.run_shots calls) = _
            rw [hf]
          rw [hrun] at htime
          rcases List.mem_cons.mp htime with heq | hrest
          · exact ⟨(es, now), List.mem_cons_self _ _, heq.symm,
              (update_step_fired t es now p hf).2.2⟩
          · obtain ⟨c2, hc2, heq, hdisp⟩ := ih (t.update_step es now).1 time hrest
            refine ⟨c2, List.mem_cons_of_mem _ hc2, heq, ?_⟩
            rw [update_step_dispatch t es now c2.1] at hdisp
            exact hdisp

/-- C6: over any sequence of `update` calls, consecutive shot timestamps
`t1, t2` satisfy `t2 - t1 ≥ rate_of_fire` (the interval is measured from
the stored last-shot time, which each shot resets), and every shot occurs
at a call where the tower's target search found an enemy — no shot is
emitted without a target in range. -/
theorem tower_fire_rate_limited (t : Tower) (calls : List (List Enemy × ℤ)) :
    List.Chain' (fun t1 t2 => t.rate_of_fire ≤ t2 - t1) (t.run_shots calls) ∧
    (∀ time ∈ t.run_shots calls, ∃ c ∈ calls, c.2 = time ∧
      t.dispatch_find_target c.1 ≠ none) := by
  refine ⟨?_, run_shots_sources calls t⟩
  have h := run_shots_chain calls t
  exact h.tail

/-- C3 (code bug evidence): on a path segment with equal start and end
waypoints, `Enemy.update` raises (pygame `Vector2.normalize` raises
`ValueError` on a zero-length vector and `enemy.py` does not guard), so
the update neither recovers nor advances the segment index. -/
theorem degenerate_segment_raises :
    Enemy.update degenerate_enemy = .error () ∧
    Vec2.normalize ((0 : ℝ), (0 : ℝ)) = .error () ∧
    degenerate_enemy.path.getD 0 (0, 0) =
      degenerate_enemy.path.getD (0 + 1) (0, 0) := by
  refine ⟨?_, ?_, rfl⟩
  · have hc : (degenerate_enemy.path_index : ℤ) <
        (degenerate_enemy.path.length : ℤ) - 1 := by
      norm_num [degenerate_enemy]
    have harg : (ptR (degenerate_enemy.path.getD
          (degenerate_enemy.path_index + 1) (0, 0))).sub
        (ptR (degenerate_enemy.path.getD degenerate_enemy.path_index (0, 0))) =
        ((0 : ℝ), (0 : ℝ)) := by
      show (ptR (5, 5)).sub (ptR (5, 5)) = _
      unfold ptR Vec2.sub
      norm_num
    have hnorm : ((ptR (degenerate_enemy.path.getD
          (degenerate_enemy.path_index + 1) (0, 0))).sub
        (ptR (degenerate_enemy.path.getD degenerate_enemy.path_index
          (0, 0)))).normalize = Except.error () := by
      rw [harg]
      unfold Vec2.normalize
      rw [if_pos rfl]
    unfold Enemy.update
    rw [if_pos hc]
    dsimp only
    rw [hnorm]
  · unfold Vec2.normalize
    rw [if_pos rfl]

/-- A leaking `Enemy.update` removes the enemy from the group and leaves
its health, reward and path untouched. -/
lemma enemy_update_leak (e e' : Enemy) (h : Enemy.update e = .ok (e', true)) :
    e'.alive = false ∧ e'.health = e.health ∧ e'.reward = e.reward := by
  unfold Enemy.update at h
  split at h
  · dsimp only at h
    split at h
    · exact Except.noConfusion h
    · split at h
      · split at h
        · simp only [Except.ok.injEq, Prod.mk.injEq] at h
          rw [← h.1]
          exact ⟨rfl, rfl, rfl⟩
        · simp only [Except.ok.injEq, Prod.mk.injEq] at h
          exact absurd h.2 (by simp)
      · split at h
        · simp only [Except.ok.injEq, Prod.mk.injEq] at h
          rw [← h.1]
          exact ⟨rfl, rfl, rfl⟩
        · simp only [Except.ok.injEq, Prod.mk.injEq] at h
          exact absurd h.2 (by simp)
  · simp only [Except.ok.injEq, Prod.mk.injEq] at h
    exact absurd h.2 (by simp)

/-- The enemy-group update skips objects that are no longer members: a
dead enemy is left exactly as it is. -/
lemma move_go_preserves_dead :
    ∀ (es es' : List Enemy) (leaked : Bool) (i : ℕ) (e : Enemy),
      move_go es = .ok (es', leaked) → es[i]? = some e → e.alive = false →
      es'[i]? = some e := by
  intro es
  induction es with
  | nil =>
      intro es' leaked i e h hi ha
      simp at hi
  | cons x xs ih =>
      intro es' leaked i e h hi ha
      unfold move_go at h
      cases hx : (if x.alive then x.update else Except.ok (x, false)) with
      | error u =>
          rw [hx] at h
          exact Except.noConfusion h
      | ok pr =>
          obtain ⟨x', lk⟩ := pr
          rw [hx] at h
          dsimp only at h
          cases hg : move_go xs with
          | error u =>
              rw [hg] at h
              exact Except.noConfusion h
          | ok qr =>
              obtain ⟨xs', lks⟩ := qr
              rw [hg] at h
              dsimp only at h
              simp only [Except.ok.injEq, Prod.mk.injEq] at h
              obtain ⟨hes, -⟩ := h
              subst hes
              cases i with
              | zero =>
                  simp only [List.getElem?_cons_zero, Option.some_inj] at hi
                  subst hi
                  rw [ha] at hx
                  rw [if_neg (by simp)] at hx
                  simp only [Except.ok.injEq, Prod.mk.injEq] at hx
                  simp [← hx.1]
              | succ i =>
                  simp only [List.getElem?_cons_succ] at hi ⊢
                  exact ih xs' lks i e hg hi ha

/-- The game-over signal of the enemy-group update arises exactly from a
live enemy whose update leaks. -/
lemma move_go_leak_iff :
    ∀ (es es' : List Enemy) (leaked : Bool),
      move_go es = .ok (es', leaked) →
      (leaked = true ↔ ∃ (i : ℕ) (e e' : Enemy), es[i]? = some e ∧
        e.alive = true ∧ Enemy.update e = .ok (e', true)) := by
  intro es
  induction es with
  | nil =>
      intro es' leaked h
      unfold move_go at h
      simp only [Except.ok.injEq, Prod.mk.injEq] at h
      rw [← h.2]
      simp
  | cons x xs ih =>
      intro es' leaked h
      unfold move_go at h
      cases hx : (if x.alive then x.update else Except.ok (x, false)) with
      | error u =>
          rw [hx] at h
          exact Except.noConfusion h
      | ok pr =>
          obtain ⟨x', lk⟩ := pr
          rw [hx] at h
          dsimp only at h
          cases hg : move_go xs with
          | error u =>
              rw [hg] at h
              exact Except.noConfusion h
          | ok qr =>
              obtain ⟨xs', lks⟩ := qr
              rw [hg] at h
              dsimp only at h
              simp only [Except.ok.injEq, Prod.mk.injEq] at h
              obtain ⟨-, hflag⟩ := h
              rw [← hflag]
              constructor
              · intro hor
                rcases Bool.or_eq_true_iff.mp hor with hlk | hlks
                · cases ha : x.alive with
                  | false =>
                      rw [ha, if_neg (by simp)] at hx
                      simp only [Except.ok.injEq, Prod.mk.injEq] at hx
                      rw [← hx.2] at hlk
                      exact Bool.noConfusion hlk
                  | true =>
                      rw [ha, if_pos rfl] at hx
                      subst hlk
                      exact ⟨0, x, x', by simp, ha, hx⟩
                · obtain ⟨i, e, e', hi, ha, hu⟩ := (ih xs' lks hg).mp hlks
                  exact ⟨i + 1, e, e', by simpa using hi, ha, hu⟩
              · rintro ⟨i, e, e', hi, ha, hu⟩
                cases i with
                | zero =>
                    simp only [List.getElem?_cons_zero, Option.some_inj] at hi
                    subst hi
                    rw [ha, if_pos rfl] at hx
                    rw [hu] at hx
                    simp only [Except.ok.injEq, Prod.mk.injEq] at hx
                    rw [← hx.2]
                    simp
                | succ i =>
                    simp only [List.getElem?_cons_succ] at hi
                    have hlks : lks = true :=
                      (ih xs' lks hg).mpr ⟨i, e, e', hi, ha, hu⟩
                    rw [hlks]
                    simp

/-- C8: death and leak are mutually exclusive terminal outcomes.  A damage
application that takes a live enemy from positive health to `≤ 0` credits
the ledger with exactly the reward and removes the enemy, and the
collision path produces no game-over signal; a leaking update removes the
enemy, leaves its health and reward untouched (no ledger credit), and the
game-over signal arises exactly from a live enemy leaking.  A removed
enemy is skipped by the movement phase and never appears in a collision
hit list, so neither outcome can be evaluated again. -/
theorem death_and_leak_exclusive :
    (∀ (e : Enemy) (amount : ℤ), 0 < e.health → e.health - amount ≤ 0 →
      (e.take_damage amount).2 = e.reward ∧ (e.take_damage amount).1.alive = false) ∧
    (∀ (e e' : Enemy), Enemy.update e = .ok (e', true) →
      e'.alive = false ∧ e'.health = e.health ∧ e'.reward = e.reward) ∧
    (∀ (es es' : List Enemy) (leaked : Bool) (i : ℕ) (e : Enemy),
      move_go es = .ok (es', leaked) → es[i]? = some e → e.alive = false →
      es'[i]? = some e) ∧
    (∀ (b : Bullet) (es : List Enemy) (i : ℕ) (e : Enemy),
      es[i]? = some e → e.alive = false → i ∉ bullet_hits b es) ∧
    (∀ (es es' : List Enemy) (leaked : Bool),
      move_go es = .ok (es', leaked) →
      (leaked = true ↔ ∃ (i : ℕ) (e e' : Enemy), es[i]? = some e ∧
        e.alive = true ∧ Enemy.update e = .ok (e', true))) := by
  refine ⟨?_, enemy_update_leak, move_go_preserves_dead, ?_, move_go_leak_iff⟩
  · intro e amount hp hd
    rw [take_damage_credit, take_damage_alive, if_pos hd]
    refine ⟨rfl, ?_⟩
    simp [hd]
  · intro b es i e hi ha hm
    have := (bullet_hits_pred b es i e hi).mp hm
    rw [ha] at this
    exact Bool.noConfusion this

/-- Evaluation of the leaking update: `leak_enemy` moves past its final
waypoint, advances the segment index, and is flagged leaked and removed. -/
lemma leak_enemy_update_eval :
    Enemy.update leak_enemy = .ok (leaked_enemy_result, true) := by
  have hc : (leak_enemy.path_index : ℤ) < (leak_enemy.path.length : ℤ) - 1 := by
    norm_num [leak_enemy]
  have hsub : (ptR (leak_enemy.path.getD (leak_enemy.path_index + 1) (0, 0))).sub
      (ptR (leak_enemy.path.getD leak_enemy.path_index (0, 0))) =
      ((1 : ℝ), (0 : ℝ)) := by
    show (ptR (1, 0)).sub (ptR (0, 0)) = _
    unfold ptR Vec2.sub
    norm_num
  have hnorm : Vec2.normalize ((1 : ℝ), (0 : ℝ)) = .ok ((1 : ℝ), (0 : ℝ)) := by
    unfold Vec2.normalize
    rw [if_neg (by simp)]
    norm_num [Real.sqrt_one]
  have hpos : leak_enemy.position.add (Vec2.smul leak_enemy.speed ((1 : ℝ), (0 : ℝ)))
      = ((2 : ℝ), (0 : ℝ)) := by
    show (ptR (0, 0)).add (Vec2.smul 2 ((1 : ℝ), (0 : ℝ))) = _
    unfold ptR Vec2.add Vec2.smul
    norm_num
  have hdist : Vec2.distance_to ((2 : ℝ), (0 : ℝ))
      (ptR (leak_enemy.path.getD (leak_enemy.path_index + 1) (0, 0))) <
      leak_enemy.speed := by
    show Vec2.distance_to ((2 : ℝ), (0 : ℝ)) (ptR (1, 0)) < 2
    unfold Vec2.distance_to ptR
    rw [show (((1 : ℤ) : ℝ) - 2) ^ 2 + (((0 : ℤ) : ℝ) - 0) ^ 2 = 1 by norm_num,
      Real.sqrt_one]
    norm_num
  have htr : truncV ((2 : ℝ), (0 : ℝ)) = ((2 : ℤ), (0 : ℤ)) := by
    unfold truncV truncZ
    rw [if_pos (by norm_num), if_pos (by norm_num)]
    norm_num
  unfold Enemy.update
  rw [if_pos hc]
  dsimp only
  rw [hsub, hnorm]
  dsimp only
  rw [hpos, if_pos hdist, htr]
  rw [if_pos (by norm_num [leak_enemy] :
    (leak_enemy.path.length : ℤ) - 1 ≤ ((leak_enemy.path_index + 1 : ℕ) : ℤ))]
  simp only [Except.ok.injEq, Prod.mk.injEq]
  refine ⟨?_, trivial⟩
  simp only [leak_enemy, leaked_enemy_result, Rect.set_center, rect_at,
    Enemy.mk.injEq, Rect.mk.injEq]
  norm_num

/-- Witness for the C8 theorem: a live health-5 reward-7 enemy hit for 5
credits exactly 7 and is removed; the concrete leaking update removes the
enemy with health and reward untouched; and the movement of the
one-element group containing the leaking enemy raises the game-over
signal. -/
theorem death_and_leak_exclusive_witness :
    (0 < (test_enemy (rect_at 0 0) 5 7).health ∧
     (test_enemy (rect_at 0 0) 5 7).health - 5 ≤ 0 ∧
     ((test_enemy (rect_at 0 0) 5 7).take_damage 5).2 =
       (test_enemy (rect_at 0 0) 5 7).reward ∧
     ((test_enemy (rect_at 0 0) 5 7).take_damage 5).1.alive = false) ∧
    (Enemy.update leak_enemy = .ok (leaked_enemy_result, true) ∧
     leaked_enemy_result.alive = false ∧
     leaked_enemy_result.health = leak_enemy.health ∧
     leaked_enemy_result.reward = leak_enemy.reward) := by
  have hd := (death_and_leak_exclusive.1 (test_enemy (rect_at 0 0) 5 7) 5
    (by norm_num [test_enemy]) (by norm_num [test_enemy]))
  have hl := death_and_leak_exclusive.2.1 leak_enemy leaked_enemy_result
    leak_enemy_update_eval
  exact ⟨⟨by norm_num [test_enemy], by norm_num [test_enemy], hd.1, hd.2⟩,
    ⟨leak_enemy_update_eval, hl.1, hl.2.1, hl.2.2⟩⟩

/-- With no live enemy in the group, no collision entry is produced and
the collision block changes neither the enemy objects nor the ledger. -/
lemma collision_phase_no_live (s : LevelS) (money : ℤ)
    (h : alive_count s.enemies = 0) :
    (collision_phase s money).1.enemies = s.enemies ∧
    (collision_phase s money).2 = money := by
  have hdead : ∀ e ∈ s.enemies, e.alive = false := by
    intro e he
    have := List.countP_eq_zero.mp h e he
    revert this
    cases e.alive <;> simp
  have hhits : ∀ b : Bullet, bullet_hits b s.enemies = [] := by
    intro b
    unfold bullet_hits
    rw [List.filter_eq_nil_iff]
    intro i hi
    have hlen : i < s.enemies.length := List.mem_range.mp hi
    rw [List.getElem?_eq_getElem hlen]
    dsimp only
    rw [hdead s.enemies[i] (List.getElem_mem hlen)]
    simp
  have hentries : collision_entries s.bullets s.enemies = [] := by
    unfold collision_entries
    rw [List.filterMap_eq_nil_iff]
    intro b hb
    by_cases hba : b.alive = true
    · rw [if_pos hba, hhits b]
      rfl
    · rw [if_neg hba]
  unfold collision_phase resolve_collisions
  rw [hentries]
  exact ⟨rfl, rfl⟩

/-- The enemy-group update is the identity (with no leak) when every
object in the list is dead. -/
lemma move_go_all_dead :
    ∀ (es : List Enemy), (∀ e ∈ es, e.alive = false) →
      move_go es = .ok (es, false) := by
  intro es
  induction es with
  | nil => intro h; rfl
  | cons x xs ih =>
      intro h
      unfold move_go
      rw [if_neg (by rw [h x (List.mem_cons_self _ _)]; simp)]
      dsimp only
      rw [ih (fun e he => h e (List.mem_cons_of_mem _ he))]
      rfl

/-- The movement phase is the identity on a level whose group is empty. -/
lemma move_phase_all_dead (s : LevelS) (h : ∀ e ∈ s.enemies, e.alive = false) :
    move_phase s = .ok (s, false) := by
  unfold move_phase
  rw [move_go_all_dead s.enemies h]

/-- `start_next_wave` never changes the wave index. -/
lemma start_next_wave_cw (wh : ℤ × ℤ) (s : LevelS) :
    (start_next_wave wh s).current_wave = s.current_wave := by
  unfold start_next_wave spawn_next_enemy
  by_cases h1 : s.current_wave < s.waves.length
  · rw [if_pos h1]
    by_cases h2 : (0 : ℕ) < (s.waves.getD s.current_wave []).length
    · rw [if_pos (by simpa using h2)]
    · rw [if_neg (by simpa using h2)]
  · rw [if_neg h1]

/-- C1 (amended): the wave scheduler advances as soon as the field is
clear: for any state with no live enemies, in a tick with no timed spawn,
the update increments the wave index whenever the current wave is not the
last — full consumption of the current wave's descriptors is NOT
required.  Conversely the completion check leaves the state untouched
whenever live enemies remain. -/
theorem wave_advances_on_clear_field_alone :
    (∀ (wh bwh : ℤ × ℤ) (bm : Bullet → Option Bullet) (now : ℤ) (s : LevelS)
        (money : ℤ),
      alive_count s.enemies = 0 →
      ¬ s.spawn_delay < now - s.last_spawn_time →
      (s.current_wave : ℤ) < (s.waves.length : ℤ) - 1 →
      ∃ out, level_update wh bwh bm now s money = .ok out ∧
        out.1.current_wave = s.current_wave + 1) ∧
    (∀ (wh : ℤ × ℤ) (s : LevelS), alive_count s.enemies ≠ 0 →
      wave_check wh s = s) := by
  constructor
  · intro wh bwh bm now s money halive hdelay hlt
    have hdead : ∀ e ∈ s.enemies, e.alive = false := by
      intro e he
      have := List.countP_eq_zero.mp halive e he
      revert this
      cases e.alive <;> simp
    have hsp : spawn_phase wh now s = s := by
      unfold spawn_phase
      rw [if_neg (by rintro ⟨-, -, hc⟩; exact hdelay hc)]
    have hcol := collision_phase_no_live s money halive
    have hmove : move_phase (collision_phase s money).1 =
        .ok ((collision_phase s money).1, false) := by
      refine move_phase_all_dead _ ?_
      rw [hcol.1]
      exact hdead
    unfold level_update
    rw [hsp]
    dsimp only
    rw [hmove]
    dsimp only
    refine ⟨_, rfl, ?_⟩
    have hXe : (bullet_phase bm (tower_phase bwh now (collision_phase s money).1
        (collision_phase s money).2).1).enemies = s.enemies := hcol.1
    unfold wave_check
    rw [if_pos ⟨by rw [hXe]; exact halive, by exact hlt⟩]
    rw [start_next_wave_cw]
    rfl
  · intro wh s h
    unfold wave_check
    rw [if_neg (by rintro ⟨hc, -⟩; exact h hc),
      if_neg (by rintro ⟨hc, -⟩; exact h hc)]

/-- C1 counterexample: from a reachable mid-wave state with three
descriptors of which only one has been spawned (its enemy already
destroyed) and no timed spawn due, the update step nevertheless advances
to the next wave — refuting "advances only when every spawn descriptor of
wave i has been instantiated". -/
theorem wave_advances_with_unspawned_descriptors :
    (level_update (30, 40) (5, 5) some 500 c1_state 0).toOption.map
      (fun out => out.1.current_wave) = some 1 ∧
    c1_state.current_wave = 0 ∧
    c1_state.spawned_enemies = 1 ∧
    (c1_state.waves.getD 0 []).length = 3 ∧
    alive_count c1_state.enemies = 0 := by
  exact ⟨rfl, rfl, rfl, rfl, rfl⟩

/-- Witness for the amended C1 theorem at the mid-wave state `c1_state`:
no live enemies, no spawn due, two unspawned descriptors — the update
still advances the wave index. -/
theorem wave_advances_on_clear_field_alone_witness :
    alive_count c1_state.enemies = 0 ∧
    ¬ c1_state.spawn_delay < 500 - c1_state.last_spawn_time ∧
    (c1_state.current_wave : ℤ) < (c1_state.waves.length : ℤ) - 1 ∧
    ∃ out, level_update (30, 40) (5, 5) some 500 c1_state 0 = .ok out ∧
      out.1.current_wave = c1_state.current_wave + 1 :=
  ⟨rfl, by decide, by decide,
    wave_advances_on_clear_field_alone.1 (30, 40) (5, 5) some 500 c1_state 0
      rfl (by decide) (by decide)⟩

/-- `start_next_wave` never changes the tower group. -/
lemma start_next_wave_towers (wh : ℤ × ℤ) (s : LevelS) :
    (start_next_wave wh s).towers = s.towers := by
  unfold start_next_wave spawn_next_enemy
  split
  · split <;> rfl
  · rfl

/-- `start_next_wave` never changes the bullet group. -/
lemma start_next_wave_bullets (wh : ℤ × ℤ) (s : LevelS) :
    (start_next_wave wh s).bullets = s.bullets := by
  unfold start_next_wave spawn_next_enemy
  split
  · split <;> rfl
  · rfl

/-- `start_next_wave` leaves every existing enemy object exactly where it
was (it at most appends one new enemy). -/
lemma start_next_wave_enemies_prefix (wh : ℤ × ℤ) (s : LevelS) (i : ℕ)
    (e : Enemy) (h : s.enemies[i]? = some e) :
    (start_next_wave wh s).enemies[i]? = some e := by
  have hlen : i < s.enemies.length := (List.getElem?_eq_some.mp h).1
  unfold start_next_wave spawn_next_enemy
  split
  · split
    · dsimp only
      rw [List.getElem?_append_left hlen]
      exact h
    · exact h
  · exact h

/-- C4 (amended): with the game-over flag set, one loop iteration leaves
the ledger, the flags, the level index, every tower, every bullet and
every existing enemy object unchanged — `_update_game` is skipped — BUT
the loop's unguarded `start_next_wave` call still runs: whenever the
active enemy set is empty and the waves are not complete it resets the
wave's spawn counter and spawns one fresh enemy. -/
theorem game_over_freezes_simulation :
    ∀ (wh bwh : ℤ × ℤ) (bm : Bullet → Option Bullet) (now : ℤ) (g : Game),
      g.is_game_over = true →
      ∃ g', game_step wh bwh bm now g = .ok g' ∧
        g'.money = g.money ∧
        g'.is_game_over = true ∧
        g'.is_game_won = g.is_game_won ∧
        g'.level_index = g.level_index ∧
        g'.levels = (if alive_count g.level.enemies = 0 &&
            !g.level.all_waves_complete then
          g.levels.set g.level_index (start_next_wave wh g.level)
        else g.levels) ∧
        (start_next_wave wh g.level).towers = g.level.towers ∧
        (start_next_wave wh g.level).bullets = g.level.bullets ∧
        (∀ (i : ℕ) (e : Enemy), g.level.enemies[i]? = some e →
          (start_next_wave wh g.level).enemies[i]? = some e) := by
  intro wh bwh bm now g hgo
  have hupd : update_game wh bwh bm now g = .ok g := by
    unfold update_game
    rw [if_neg (by rw [hgo]; simp)]
  unfold game_step
  rw [hupd]
  dsimp only
  by_cases hsp : (alive_count g.level.enemies = 0 &&
      !g.level.all_waves_complete) = true
  · rw [if_pos hsp]
    exact ⟨_, rfl, rfl, hgo, rfl, rfl, (if_pos hsp).symm,
      start_next_wave_towers wh g.level, start_next_wave_bullets wh g.level,
      fun i e h => start_next_wave_enemies_prefix wh g.level i e h⟩
  · rw [if_neg hsp]
    exact ⟨_, rfl, rfl, hgo, rfl, rfl, (if_neg hsp).symm,
      start_next_wave_towers wh g.level, start_next_wave_bullets wh g.level,
      fun i e h => start_next_wave_enemies_prefix wh g.level i e h⟩

/-- Witness for the amended C4 theorem at the post-leak state `c4_game`. -/
theorem game_over_freezes_simulation_witness :
    c4_game.is_game_over = true ∧
    ∃ g', game_step (30, 40) (5, 5) some 500 c4_game = .ok g' ∧
      g'.money = c4_game.money ∧
      g'.is_game_over = true ∧
      g'.is_game_won = c4_game.is_game_won ∧
      g'.level_index = c4_game.level_index ∧
      g'.levels = (if alive_count c4_game.level.enemies = 0 &&
          !c4_game.level.all_waves_complete then
        c4_game.levels.set c4_game.level_index
          (start_next_wave (30, 40) c4_game.level)
      else c4_game.levels) ∧
      (start_next_wave (30, 40) c4_game.level).towers = c4_game.level.towers ∧
      (start_next_wave (30, 40) c4_game.level).bullets = c4_game.level.bullets ∧
      (∀ (i : ℕ) (e : Enemy), c4_game.level.enemies[i]? = some e →
        (start_next_wave (30, 40) c4_game.level).enemies[i]? = some e) :=
  ⟨rfl, game_over_freezes_simulation (30, 40) (5, 5) some 500 c4_game rfl⟩

/-- C4 counterexample: with the game-over flag set and the field clear,
one loop iteration spawns a fresh live enemy (the run loop's
`start_next_wave` call is outside the game-over guard), refuting "never
spawns a new enemy until externally reset". -/
theorem game_over_still_spawns_enemy :
    (game_step (30, 40) (5, 5) some 500 c4_game).toOption.map
      (fun g => alive_count g.level.enemies) = some 1 ∧
    c4_game.is_game_over = true ∧
    alive_count c4_game.level.enemies = 0 ∧
    (game_step (30, 40) (5, 5) some 500 c4_game).toOption.map
      (fun g => g.level.enemies.length) = some 2 ∧
    c4_game.level.enemies.length = 1 :=
  ⟨rfl, rfl, rfl, rfl, rfl⟩

/-- C10: in `Level1.__init__` the path of each wave is drawn from the
level's path set once, while the wave list literal is built: every
descriptor of a wave carries that same single path (the `* n` replication
copies one descriptor), the spawned enemy's path is taken verbatim from
its descriptor, and neither spawn routine draws any randomness — each
spawn is a pure function of the level state, so no per-spawn path
selection occurs during the game. -/
theorem wave_paths_drawn_once_at_construction :
    ∀ (p1 p2 p3 p4 p5 : List (ℤ × ℤ)),
      p1 ∈ level1_paths → p2 ∈ level1_paths → p3 ∈ level1_paths →
      p4 ∈ level1_paths → p5 ∈ level1_paths →
      (∀ w ∈ level1_waves p1 p2 p3 p4 p5, ∃ p ∈ level1_paths,
        ∀ d ∈ w, SpawnDesc.path d = p) ∧
      (∀ (wh : ℤ × ℤ) (d : SpawnDesc), (mk_enemy wh d).path = d.path) ∧
      (∀ (wh : ℤ × ℤ) (now : ℤ) (s : LevelS),
        (spawn_phase wh now s).enemies = s.enemies ∨
        (spawn_phase wh now s).enemies = s.enemies ++
          [mk_enemy wh ((s.waves.getD s.current_wave []).getD
            s.spawned_enemies default)]) ∧
      (∀ (wh : ℤ × ℤ) (s : LevelS),
        (spawn_next_enemy wh s).enemies = s.enemies ∨
        (spawn_next_enemy wh s).enemies = s.enemies ++
          [mk_enemy wh ((s.waves.getD s.current_wave []).getD
            s.spawned_enemies default)]) := by
  intro p1 p2 p3 p4 p5 h1 h2 h3 h4 h5
  refine ⟨?_, fun wh d => rfl, ?_, ?_⟩
  · intro w hw
    unfold level1_waves at hw
    simp only [List.mem_cons, List.not_mem_nil, or_false] at hw
    rcases hw with hw | hw | hw | hw | hw
    · subst hw
      exact ⟨p1, h1, fun d hd => by rw [List.eq_of_mem_replicate hd]⟩
    · subst hw
      exact ⟨p2, h2, fun d hd => by rw [List.eq_of_mem_replicate hd]⟩
    · subst hw
      exact ⟨p3, h3, fun d hd => by rw [List.eq_of_mem_replicate hd]⟩
    · subst hw
      exact ⟨p4, h4, fun d hd => by rw [List.eq_of_mem_replicate hd]⟩
    · subst hw
      exact ⟨p5, h5, fun d hd => by rw [List.eq_of_mem_replicate hd]⟩
  · intro wh now s
    unfold spawn_phase
    split
    · right
      rfl
    · left
      rfl
  · intro wh s
    unfold spawn_next_enemy
    split
    · right
      rfl
    · left
      rfl

/-- Witness for the C10 theorem at the actual `Level1` path set (a single
path, so every draw picks it): the first wave's five descriptors all
carry that path. -/
theorem wave_paths_drawn_once_at_construction_witness :
    ([(50, 400), (50, 200), (400, 200), (500, 50)] : List (ℤ × ℤ)) ∈
      level1_paths ∧
    (∀ w ∈ level1_waves [(50, 400), (50, 200), (400, 200), (500, 50)]
        [(50, 400), (50, 200), (400, 200), (500, 50)]
        [(50, 400), (50, 200), (400, 200), (500, 50)]
        [(50, 400), (50, 200), (400, 200), (500, 50)]
        [(50, 400), (50, 200), (400, 200), (500, 50)], ∃ p ∈ level1_paths,
      ∀ d ∈ w, SpawnDesc.path d = p) := by
  have hmem : ([(50, 400), (50, 200), (400, 200), (500, 50)] : List (ℤ × ℤ)) ∈
      level1_paths := by
    unfold level1_paths
    exact List.mem_cons_self _ _
  exact ⟨hmem,
    (wave_paths_drawn_once_at_construction _ _ _ _ _
      hmem hmem hmem hmem hmem).1⟩

end TowerDefence
